import Mathlib

/-!
# serial_reader: framing of one `drone_self_state` record

Shallow embedding of `serial/serial_reader.h` (the packed record) and of
`gs_serial/serial_reader.cpp` (`read_drone_state`, the accumulation loop over
`read(2)`).

The serial descriptor is modelled as the bytes the peer still has to deliver
together with a script saying what each successive call of `read(2)` does.  A
script that runs out while bytes are still outstanding stands for a call that
stays blocked in `read(2)`: the model then gives `none`.
-/

namespace SerialReader

/-! ## Data model (`serial_reader.h`) -/

/-- One octet of the destination buffer (`uint8_t`). -/
abbrev uint8_t := Fin 256

/-- `#define NUM_UNITS 4`. -/
def NUM_UNITS : Nat := 4

/-- Members of `struct drone_self_state` in declaration order, each with its
width in bits (`int16_t` 16, `float` 32, bit-fields as declared). -/
def drone_self_state : List (String × Nat) :=
  [ ("id", 16),
    ("lat", 32),
    ("lon", 32),
    ("alt", 32),
    ("velocity_north", 32),
    ("velocity_east", 32),
    ("velocity_down", 32),
    ("heading", 32),
    ("sm_current_stat", 16),
    ("battery_precentages", 16),
    ("drones_keep_alive", NUM_UNITS),
    ("gps_3d_fix", 1),
    ("padding", 11) ]

/-- `sizeof(struct drone_self_state)` under `#pragma pack(push, 1)`: the
members follow each other without padding, the three bit-fields fill one
`int16_t` storage unit. -/
def sizeof_drone_self_state : Nat :=
  (drone_self_state.map Prod.snd).sum / 8

/-! ## The descriptor and `read(2)` -/

/-- `EINTR` of `<errno.h>`. -/
def EINTR : Nat := 4

/-- What one call of `read(2)` on the descriptor does. -/
inductive ReadEvent where
  /-- Up to `n` bytes can be transferred by this call (`n = 0`: the peer has
  closed, the call returns 0). -/
  | ready (n : Nat)
  /-- The call returns -1 with `errno` set to the given value. -/
  | error (errno : Nat)
  deriving DecidableEq, Repr

/-- State of the serial descriptor: the bytes not yet consumed, in order, and
what the coming calls of `read(2)` do. -/
structure Stream where
  pending : List uint8_t
  script : List ReadEvent
  deriving DecidableEq, Repr

/-- One call `read(serial_fd, buffer + offset, count)` as issued by the loop,
with the value it returned (`errno` is 0 unless `bytes_read < 0`). -/
structure ReadCall where
  offset : Nat
  count : Nat
  bytes_read : Int
  errno : Nat
  deriving DecidableEq, Repr

/-- Lines written to `std::cerr`. -/
inductive Diagnostic where
  /-- `"Error reading from serial: " << strerror(errno)`. -/
  | read_error (errno : Nat)
  /-- `"Serial connection closed unexpectedly."`. -/
  | connection_closed
  deriving DecidableEq, Repr

/-- Number of bytes `read(fd, buf, count)` transfers when `n` bytes can be
delivered: never more than requested, never more than the peer has. Once the
pending bytes are used up the call transfers nothing and returns 0, as at end
of file. -/
def transfer (n count : Nat) (pending : List uint8_t) : Nat :=
  min n (min count pending.length)

/-- Memory after `chunk` has been stored at `buffer + offset`. -/
def store (buffer : List uint8_t) (offset : Nat) (chunk : List uint8_t) : List uint8_t :=
  buffer.take offset ++ chunk ++ buffer.drop (offset + chunk.length)

/-! ## `read_drone_state` (`serial_reader.cpp`) -/

/-- Local state of the accumulation loop, with the descriptor's pending bytes
and the calls of `read(2)` issued so far. -/
structure LoopState where
  total_read : Nat
  buffer : List uint8_t
  pending : List uint8_t
  reads : List ReadCall
  deriving DecidableEq, Repr

/-- What the caller and the environment see once `read_drone_state` has
returned. -/
structure Outcome where
  /-- Returned `int`. -/
  ret : Int
  /-- Bytes of `*state` (`none` for a null pointer). -/
  state : Option (List uint8_t)
  /-- The descriptor after the call. -/
  stream : Stream
  /-- Lines written to `std::cerr`. -/
  cerr : List Diagnostic
  /-- Calls of `read(2)` issued, in order. -/
  reads : List ReadCall
  deriving DecidableEq, Repr

/-- Result of one pass through the body of the `while`. -/
inductive Step where
  /-- Control goes back to the loop test (`continue` or end of body). -/
  | next (st : LoopState)
  /-- `return ret` after the given line on `std::cerr`. -/
  | exit (ret : Int) (line : Diagnostic) (st : LoopState)
  deriving DecidableEq, Repr

/-- Body of the `while` loop for one call of `read(2)`. -/
def loop_body (size_to_read : Nat) (st : LoopState) (ev : ReadEvent) : Step :=
  let count := size_to_read - st.total_read
  match ev with
  | .error errno =>
    -- bytes_read < 0
    let st1 := { st with reads := st.reads ++ [⟨st.total_read, count, -1, errno⟩] }
    if errno = EINTR then .next st1
    else .exit (-1) (.read_error errno) st1
  | .ready n =>
    let bytes_read := transfer n count st.pending
    let st1 : LoopState :=
      { total_read := st.total_read
        buffer := store st.buffer st.total_read (st.pending.take bytes_read)
        pending := st.pending.drop bytes_read
        reads := st.reads ++ [⟨st.total_read, count, bytes_read, 0⟩] }
    if bytes_read = 0 then .exit (-1) .connection_closed st1
    else .next { st1 with total_read := st.total_read + bytes_read }

/-- The loop `while (total_read < size_to_read) { ... } return 0;`. -/
def while_loop (size_to_read : Nat) : List ReadEvent → LoopState → Option Outcome
  | script, st =>
    if st.total_read < size_to_read then
      match script with
      | [] => none
      | ev :: rest =>
        match loop_body size_to_read st ev with
        | .next st1 => while_loop size_to_read rest st1
        | .exit ret line st1 =>
          some { ret := ret, state := some st1.buffer, stream := ⟨st1.pending, rest⟩,
                 cerr := [line], reads := st1.reads }
    else
      some { ret := 0, state := some st.buffer, stream := ⟨st.pending, script⟩,
             cerr := [], reads := st.reads }

/-- `int read_drone_state(int serial_fd, struct drone_self_state* state)`;
`state = none` is the null pointer. -/
def read_drone_state (serial_fd : Stream) (state : Option (List uint8_t)) : Option Outcome :=
  match state with
  | none =>
    some { ret := -1, state := none, stream := serial_fd, cerr := [], reads := [] }
  | some buffer =>
    while_loop sizeof_drone_self_state serial_fd.script
      { total_read := 0, buffer := buffer, pending := serial_fd.pending, reads := [] }

/-! ## Vocabulary of the statements -/

/-- Bytes transferred by the calls of a trace (a failed call transfers none). -/
def transferred (reads : List ReadCall) : Nat :=
  (reads.map (fun c => c.bytes_read.toNat)).sum

/-- A call after which the loop goes on: it transferred at least one byte, or
it failed with `EINTR`. -/
def ReadCall.absorbed (c : ReadCall) : Prop :=
  c.bytes_read ≠ 0 ∧ (c.bytes_read < 0 → c.errno = EINTR)

instance (c : ReadCall) : Decidable c.absorbed := by
  unfold ReadCall.absorbed; infer_instance

/-- An event that cannot make the loop fail: data is ready, or the call is
interrupted. -/
def ReadEvent.benign : ReadEvent → Prop
  | .ready n => 1 ≤ n
  | .error errno => errno = EINTR

instance (ev : ReadEvent) : Decidable ev.benign := by
  cases ev <;> unfold ReadEvent.benign <;> infer_instance

/-- Bytes the events of a script are ready to deliver, taken together. -/
def delivered : List ReadEvent → Nat
  | [] => 0
  | .ready n :: rest => n + delivered rest
  | .error _ :: rest => delivered rest

/-- Number of events of a script that are interrupted calls. -/
def interruptions : List ReadEvent → Nat
  | [] => 0
  | .error errno :: rest => (if errno = EINTR then 1 else 0) + interruptions rest
  | .ready _ :: rest => interruptions rest

/-- What the caller of `read_drone_state` can observe of an outcome, and the
bytes left in the descriptor; the log of calls and the unused part of the
script are left out. -/
def Outcome.observable (o : Outcome) : Int × Option (List uint8_t) × List Diagnostic × List uint8_t :=
  (o.ret, o.state, o.cerr, o.stream.pending)

/-- Call `d` starts where call `c` ended: at the offset of `c` plus the bytes
`c` transferred. -/
def ReadCall.follows (c d : ReadCall) : Prop :=
  d.offset = c.offset + c.bytes_read.toNat

/-- Loop invariant, for a call started on the bytes `bytes` with the script
`script0` and the destination `dest`: the first `total_read` bytes of the
buffer are the first `total_read` bytes of the stream, the rest of the buffer
is untouched, and the log has one absorbed call per consumed event. -/
structure Inv (S : Nat) (bytes dest : List uint8_t) (script0 script : List ReadEvent)
    (st : LoopState) : Prop where
  le_bytes : st.total_read ≤ bytes.length
  le_size : st.total_read ≤ S
  buffer_eq : st.buffer = bytes.take st.total_read ++ dest.drop st.total_read
  pending_eq : st.pending = bytes.drop st.total_read
  script_eq : ∃ consumed, script0 = consumed ++ script ∧ consumed.length = st.reads.length
  transferred_eq : transferred st.reads = st.total_read
  calls : ∀ c ∈ st.reads, c.offset < S ∧ c.count = S - c.offset ∧ c.bytes_read ≤ c.count
  absorbed : ∀ c ∈ st.reads, c.absorbed
  errors : ∀ c ∈ st.reads, c.bytes_read < 0 → ReadEvent.error c.errno ∈ script0
  chain : st.reads.Chain' ReadCall.follows
  last : ∀ c ∈ st.reads.getLast?, c.offset + c.bytes_read.toNat = st.total_read

/-- What holds of every outcome of the loop, `k` being the number of bytes
transferred. -/
structure Returned (S : Nat) (bytes dest : List uint8_t) (script0 : List ReadEvent)
    (o : Outcome) (k : Nat) : Prop where
  le_bytes : k ≤ bytes.length
  le_size : k ≤ S
  state_eq : o.state = some (bytes.take k ++ dest.drop k)
  pending_eq : o.stream.pending = bytes.drop k
  script_eq : ∃ consumed, script0 = consumed ++ o.stream.script ∧
    consumed.length = o.reads.length
  transferred_eq : transferred o.reads = k
  calls : ∀ c ∈ o.reads, c.offset < S ∧ c.count = S - c.offset ∧ c.bytes_read ≤ c.count
  errors : ∀ c ∈ o.reads, c.bytes_read < 0 → ReadEvent.error c.errno ∈ script0
  chain : o.reads.Chain' ReadCall.follows
  last : ∀ c ∈ o.reads.getLast?, c.offset + c.bytes_read.toNat = k
  verdict : (o.ret = 0 ∧ k = S ∧ o.cerr = [] ∧ ∀ c ∈ o.reads, c.absorbed) ∨
    (o.ret = -1 ∧ k < S ∧ o.cerr.length = 1 ∧ ∃ c ∈ o.reads, ¬ c.absorbed)

/-! ## Layout of the record and decoding of the bit-fields -/

/-- Offset in bits of member `name` in a packed list of members: the sum of
the widths of the members declared before it. -/
def bit_offset_of : List (String × Nat) → String → Nat
  | [], _ => 0
  | (m, w) :: rest, name => if m = name then 0 else w + bit_offset_of rest name

/-- Width in bits of member `name`. -/
def width_of : List (String × Nat) → String → Nat
  | [], _ => 0
  | (m, w) :: rest, name => if m = name then w else width_of rest name

/-- `offsetof(struct drone_self_state, name)`: the byte in which the member
starts. -/
def offsetof (name : String) : Nat :=
  bit_offset_of drone_self_state name / 8

/-- Number of bytes of the record, from `offsetof name` on, that hold bits of
member `name`. -/
def extent (name : String) : Nat :=
  (bit_offset_of drone_self_state name + width_of drone_self_state name + 7) / 8 - offsetof name

/-- Bytes of the record `rec` that hold member `name`. -/
def member_bytes (rec : List uint8_t) (name : String) : List uint8_t :=
  (rec.drop (offsetof name)).take (extent name)

/-- What the header leaves to the compilation target: the order of the bytes
of an `int16_t` in memory and the end of the storage unit from which
bit-fields are allocated. -/
inductive Target where
  /-- Least significant byte first, bit-fields allocated from the least
  significant bit (x86-64, AArch64 and the other little-endian ABIs). -/
  | little
  /-- Most significant byte first, bit-fields allocated from the most
  significant bit (the big-endian ABIs). -/
  | big
  deriving DecidableEq, Repr

/-- Value, as an unsigned 16-bit number, of the two bytes `b0`, `b1` stored in
this order. -/
def load16 (t : Target) (b0 b1 : uint8_t) : Nat :=
  match t with
  | .little => b0.val + 256 * b1.val
  | .big => 256 * b0.val + b1.val

/-- The 16-bit storage unit shared by the three bit-fields, read from the
bytes of the record. -/
def storage_unit (t : Target) (rec : List uint8_t) : Nat :=
  load16 t (rec.getD (offsetof "drones_keep_alive") 0)
    (rec.getD (offsetof "drones_keep_alive" + 1) 0)

/-- Position of bit-field `name` inside its storage unit, counted in bits in
the order of allocation. -/
def unit_pos (name : String) : Nat :=
  bit_offset_of drone_self_state name - 8 * offsetof name

/-- Bit pattern of the bit-field of `width` bits allocated at position `pos`
of the 16-bit storage unit `u`. -/
def bit_field (t : Target) (u pos width : Nat) : Nat :=
  match t with
  | .little => (u / 2 ^ pos) % 2 ^ width
  | .big => (u / 2 ^ (16 - pos - width)) % 2 ^ width

/-- Value of a bit-field of signed type (`int16_t`) and `width` bits that
holds the bit pattern `raw`: two's complement. -/
def sign_extend (width raw : Nat) : Int :=
  if raw < 2 ^ (width - 1) then (raw : Int) else (raw : Int) - 2 ^ width

/-- Bit pattern of bit-field `name` in the storage unit `u`. -/
def member_bits (t : Target) (u : Nat) (name : String) : Nat :=
  bit_field t u (unit_pos name) (width_of drone_self_state name)

/-- Value read from `state->drones_keep_alive` (`int16_t : NUM_UNITS`). -/
def drones_keep_alive (t : Target) (u : Nat) : Int :=
  sign_extend (width_of drone_self_state "drones_keep_alive") (member_bits t u "drones_keep_alive")

/-- Value read from `state->gps_3d_fix` (`int16_t : 1`). -/
def gps_3d_fix (t : Target) (u : Nat) : Int :=
  sign_extend (width_of drone_self_state "gps_3d_fix") (member_bits t u "gps_3d_fix")

/-- The storage unit whose three bit-fields hold the bit patterns `ka`, `fix`
and `pad`. -/
def pack_unit (t : Target) (ka fix pad : Nat) : Nat :=
  match t with
  | .little => ka + 16 * fix + 32 * pad
  | .big => 4096 * ka + 2048 * fix + pad

/-! ## Sample inputs -/

/-- The 36 bytes 0, 1, ..., 35. -/
def sample_record : List uint8_t := (List.range 36).map (fun i => Fin.ofNat i)

/-- The 26 bytes 0, 1, ..., 25. -/
def sample_short : List uint8_t := (List.range 26).map (fun i => Fin.ofNat i)

/-- A destination record filled with the byte 255. -/
def sample_dest : List uint8_t := List.replicate 36 255

/-- A script of 36 one-byte reads with two interrupted calls among them. -/
def sample_interrupted : List ReadEvent :=
  .error EINTR :: .ready 1 :: .error EINTR :: List.replicate 35 (.ready 1)

/-! ## Unfolding lemmas -/

theorem sizeof_drone_self_state_eq : sizeof_drone_self_state = 36 := by decide

theorem while_loop_done (S : Nat) (script : List ReadEvent) (st : LoopState)
    (h : ¬ st.total_read < S) :
    while_loop S script st =
      some { ret := 0, state := some st.buffer, stream := ⟨st.pending, script⟩,
             cerr := [], reads := st.reads } := by
  cases script <;> simp [while_loop, h]

theorem while_loop_nil (S : Nat) (st : LoopState) (h : st.total_read < S) :
    while_loop S [] st = none := by
  simp [while_loop, h]

theorem while_loop_cons (S : Nat) (ev : ReadEvent) (rest : List ReadEvent) (st : LoopState)
    (h : st.total_read < S) :
    while_loop S (ev :: rest) st =
      match loop_body S st ev with
      | .next st1 => while_loop S rest st1
      | .exit ret line st1 =>
        some { ret := ret, state := some st1.buffer, stream := ⟨st1.pending, rest⟩,
               cerr := [line], reads := st1.reads } := by
  simp [while_loop, h]

theorem store_nil (buffer : List uint8_t) (offset : Nat) : store buffer offset [] = buffer := by
  simp [store]

theorem loop_body_eintr (S : Nat) (st : LoopState) :
    loop_body S st (.error EINTR) =
      .next { st with reads := st.reads ++ [⟨st.total_read, S - st.total_read, -1, EINTR⟩] } := by
  simp [loop_body]

theorem loop_body_error (S : Nat) (st : LoopState) (e : Nat) (h : e ≠ EINTR) :
    loop_body S st (.error e) =
      .exit (-1) (.read_error e)
        { st with reads := st.reads ++ [⟨st.total_read, S - st.total_read, -1, e⟩] } := by
  simp [loop_body, h]

theorem loop_body_closed (S : Nat) (st : LoopState) (n : Nat)
    (h : transfer n (S - st.total_read) st.pending = 0) :
    loop_body S st (.ready n) =
      .exit (-1) .connection_closed
        { st with reads := st.reads ++ [⟨st.total_read, S - st.total_read, 0, 0⟩] } := by
  simp [loop_body, h, store_nil]

theorem loop_body_data (S : Nat) (st : LoopState) (n : Nat)
    (h : transfer n (S - st.total_read) st.pending ≠ 0) :
    loop_body S st (.ready n) =
      .next
        { total_read := st.total_read + transfer n (S - st.total_read) st.pending
          buffer := store st.buffer st.total_read
            (st.pending.take (transfer n (S - st.total_read) st.pending))
          pending := st.pending.drop (transfer n (S - st.total_read) st.pending)
          reads := st.reads ++
            [⟨st.total_read, S - st.total_read, transfer n (S - st.total_read) st.pending, 0⟩] } := by
  simp [loop_body, h]

/-- Case analysis of one pass through the loop body. -/
theorem loop_body_cases (S : Nat) (st : LoopState) (ev : ReadEvent) :
    (ev = .error EINTR ∧ loop_body S st ev =
      .next { st with reads := st.reads ++ [⟨st.total_read, S - st.total_read, -1, EINTR⟩] })
    ∨ (∃ e, e ≠ EINTR ∧ ev = .error e ∧ loop_body S st ev =
      .exit (-1) (.read_error e)
        { st with reads := st.reads ++ [⟨st.total_read, S - st.total_read, -1, e⟩] })
    ∨ (∃ n, ev = .ready n ∧ transfer n (S - st.total_read) st.pending = 0 ∧ loop_body S st ev =
      .exit (-1) .connection_closed
        { st with reads := st.reads ++ [⟨st.total_read, S - st.total_read, 0, 0⟩] })
    ∨ (∃ n b, ev = .ready n ∧ b = transfer n (S - st.total_read) st.pending ∧ b ≠ 0 ∧
      loop_body S st ev =
      .next
        { total_read := st.total_read + b
          buffer := store st.buffer st.total_read (st.pending.take b)
          pending := st.pending.drop b
          reads := st.reads ++ [⟨st.total_read, S - st.total_read, b, 0⟩] }) := by
  cases ev with
  | error e =>
    by_cases h : e = EINTR
    · subst h; exact Or.inl ⟨rfl, loop_body_eintr S st⟩
    · exact Or.inr (Or.inl ⟨e, h, rfl, loop_body_error S st e h⟩)
  | ready n =>
    by_cases h : transfer n (S - st.total_read) st.pending = 0
    · exact Or.inr (Or.inr (Or.inl ⟨n, rfl, h, loop_body_closed S st n h⟩))
    · exact Or.inr (Or.inr (Or.inr ⟨n, _, rfl, rfl, h, loop_body_data S st n h⟩))

/-- Invariant rule for the loop: what holds of every state at the loop test
and is handed over at each of the three `return`s holds of the outcome. -/
theorem while_loop_rule (S : Nat) (I : List ReadEvent → LoopState → Prop) (Q : Outcome → Prop)
    (hnext : ∀ ev rest st st1, I (ev :: rest) st → st.total_read < S →
      loop_body S st ev = .next st1 → I rest st1)
    (hexit : ∀ ev rest st ret line st1, I (ev :: rest) st → st.total_read < S →
      loop_body S st ev = .exit ret line st1 →
      Q { ret := ret, state := some st1.buffer, stream := ⟨st1.pending, rest⟩,
          cerr := [line], reads := st1.reads })
    (hdone : ∀ script st, I script st → ¬ st.total_read < S →
      Q { ret := 0, state := some st.buffer, stream := ⟨st.pending, script⟩,
          cerr := [], reads := st.reads }) :
    ∀ (script : List ReadEvent) (st : LoopState) (o : Outcome),
      I script st → while_loop S script st = some o → Q o := by
  intro script
  induction script with
  | nil =>
    intro st o hI h
    by_cases ht : st.total_read < S
    · rw [while_loop_nil S st ht] at h; cases h
    · rw [while_loop_done S [] st ht] at h
      cases h; exact hdone [] st hI ht
  | cons ev rest ih =>
    intro st o hI h
    by_cases ht : st.total_read < S
    · rw [while_loop_cons S ev rest st ht] at h
      cases hb : loop_body S st ev with
      | next st1 =>
        rw [hb] at h
        exact ih st1 o (hnext ev rest st st1 hI ht hb) h
      | exit ret line st1 =>
        rw [hb] at h
        cases h
        exact hexit ev rest st ret line st1 hI ht hb
    · rw [while_loop_done S (ev :: rest) st ht] at h
      cases h; exact hdone (ev :: rest) st hI ht

/-! ## The invariant of the accumulation loop -/

theorem transferred_nil : transferred [] = 0 := rfl

theorem transferred_concat (reads : List ReadCall) (c : ReadCall) :
    transferred (reads ++ [c]) = transferred reads + c.bytes_read.toNat := by
  simp [transferred]

theorem transfer_le_count (n count : Nat) (pending : List uint8_t) :
    transfer n count pending ≤ count := by
  unfold transfer; omega

theorem transfer_le_pending (n count : Nat) (pending : List uint8_t) :
    transfer n count pending ≤ pending.length := by
  unfold transfer; omega

theorem transfer_le_ready (n count : Nat) (pending : List uint8_t) :
    transfer n count pending ≤ n := by
  unfold transfer; omega

theorem transfer_cases (n count : Nat) (pending : List uint8_t) (h : count ≤ pending.length) :
    (transfer n count pending = n ∧ n ≤ count) ∨
      (transfer n count pending = count ∧ count ≤ n) := by
  unfold transfer
  rw [Nat.min_eq_left h]
  rcases Nat.le_total n count with h1 | h1
  · exact Or.inl ⟨Nat.min_eq_left h1, h1⟩
  · exact Or.inr ⟨Nat.min_eq_right h1, h1⟩

/-- Storing the next `b` stream bytes at offset `t` of a buffer whose first
`t` bytes already are the first `t` stream bytes. -/
theorem store_filled (bytes dest : List uint8_t) (t b : Nat) (h : t + b ≤ bytes.length) :
    store (bytes.take t ++ dest.drop t) t ((bytes.drop t).take b)
      = bytes.take (t + b) ++ dest.drop (t + b) := by
  have hl : (bytes.take t).length = t := by simp; omega
  have hc : ((bytes.drop t).take b).length = b := by simp; omega
  unfold store
  rw [hc, List.take_left' hl, List.take_add]
  have hd : List.drop (t + b) (List.take t bytes ++ List.drop t dest)
      = List.drop (t + b) dest := by
    rw [List.drop_append_eq_append_drop, hl]
    have h0 : List.drop (t + b) (List.take t bytes) = [] :=
      List.drop_eq_nil_of_le (by rw [hl]; omega)
    rw [h0]
    simp
  rw [hd]

theorem Inv.init (S : Nat) (bytes dest : List uint8_t) (script0 : List ReadEvent) :
    Inv S bytes dest script0 script0
      { total_read := 0, buffer := dest, pending := bytes, reads := [] } where
  le_bytes := Nat.zero_le _
  le_size := Nat.zero_le _
  buffer_eq := by simp
  pending_eq := by simp
  script_eq := ⟨[], by simp⟩
  transferred_eq := rfl
  calls := by simp
  absorbed := by simp
  errors := by simp
  chain := List.chain'_nil
  last := by simp

theorem script_eq_step {script0 rest : List ReadEvent} {ev : ReadEvent} {reads : List ReadCall}
    (c : ReadCall)
    (h : ∃ consumed, script0 = consumed ++ ev :: rest ∧ consumed.length = reads.length) :
    ∃ consumed, script0 = consumed ++ rest ∧ consumed.length = (reads ++ [c]).length := by
  obtain ⟨consumed, h1, h2⟩ := h
  exact ⟨consumed ++ [ev], by simp [h1], by simp [h2]⟩

theorem errors_concat {script0 rest : List ReadEvent} {ev : ReadEvent} {reads : List ReadCall}
    (c : ReadCall)
    (hs : ∃ consumed, script0 = consumed ++ ev :: rest ∧ consumed.length = reads.length)
    (h : ∀ d ∈ reads, d.bytes_read < 0 → ReadEvent.error d.errno ∈ script0)
    (hc : c.bytes_read < 0 → ev = .error c.errno) :
    ∀ d ∈ reads ++ [c], d.bytes_read < 0 → ReadEvent.error d.errno ∈ script0 := by
  intro d hd hneg
  rcases List.mem_append.1 hd with hd | hd
  · exact h d hd hneg
  · simp at hd; subst hd
    obtain ⟨consumed, h1, _⟩ := hs
    rw [h1, ← hc hneg]
    simp

theorem chain_concat {reads : List ReadCall} {t : Nat} (c : ReadCall)
    (hchain : reads.Chain' ReadCall.follows)
    (hlast : ∀ d ∈ reads.getLast?, d.offset + d.bytes_read.toNat = t)
    (hc : c.offset = t) :
    (reads ++ [c]).Chain' ReadCall.follows := by
  refine List.Chain'.append hchain (List.chain'_singleton c) ?_
  intro x hx y hy
  simp at hy; subst hy
  unfold ReadCall.follows
  rw [hc]; exact (hlast x hx).symm

theorem last_concat {reads : List ReadCall} {t : Nat} (c : ReadCall)
    (hc : c.offset + c.bytes_read.toNat = t) :
    ∀ d ∈ (reads ++ [c]).getLast?, d.offset + d.bytes_read.toNat = t := by
  intro d hd
  rw [List.getLast?_concat] at hd
  simp at hd; subst hd; exact hc

/-- Every outcome of the loop started in its initial state satisfies
`Returned` for some number `k` of transferred bytes. -/
theorem while_loop_returned (S : Nat) (bytes dest : List uint8_t) (script0 : List ReadEvent)
    (o : Outcome)
    (h : while_loop S script0 { total_read := 0, buffer := dest, pending := bytes, reads := [] }
      = some o) :
    ∃ k, Returned S bytes dest script0 o k := by
  refine while_loop_rule S (Inv S bytes dest script0)
    (fun o => ∃ k, Returned S bytes dest script0 o k) ?_ ?_ ?_ script0 _ o
    (Inv.init S bytes dest script0) h
  · -- a pass that goes back to the loop test
    intro ev rest st st1 hI ht hb
    rcases loop_body_cases S st ev with ⟨hev, h1⟩ | ⟨e, _, _, h1⟩ | ⟨n, _, _, h1⟩ | ⟨n, b, hev, hbv, hb0, h1⟩
    · rw [h1] at hb; cases hb
      exact
        { le_bytes := hI.le_bytes
          le_size := hI.le_size
          buffer_eq := hI.buffer_eq
          pending_eq := hI.pending_eq
          script_eq := script_eq_step _ hI.script_eq
          transferred_eq := by
            rw [transferred_concat]; simpa using hI.transferred_eq
          calls := by
            intro c hc
            rcases List.mem_append.1 hc with hc | hc
            · exact hI.calls c hc
            · simp at hc; subst hc; simp; omega
          absorbed := by
            intro c hc
            rcases List.mem_append.1 hc with hc | hc
            · exact hI.absorbed c hc
            · simp at hc; subst hc; simp [ReadCall.absorbed]
          errors := errors_concat _ hI.script_eq hI.errors (fun _ => hev)
          chain := chain_concat _ hI.chain hI.last rfl
          last := last_concat _ (by simp) }
    · rw [h1] at hb; cases hb
    · rw [h1] at hb; cases hb
    · rw [h1] at hb; cases hb
      have hle1 : b ≤ S - st.total_read := hbv ▸ transfer_le_count _ _ _
      have hle2 : b ≤ st.pending.length := hbv ▸ transfer_le_pending _ _ _
      have hlen : st.pending.length = bytes.length - st.total_read := by
        rw [hI.pending_eq]; simp
      exact
        { le_bytes := by show st.total_read + b ≤ bytes.length; omega
          le_size := by show st.total_read + b ≤ S; omega
          buffer_eq := by
            show store st.buffer st.total_read (st.pending.take b) = _
            rw [hI.buffer_eq, hI.pending_eq]
            exact store_filled bytes dest st.total_read b (by omega)
          pending_eq := by
            show st.pending.drop b = _
            rw [hI.pending_eq, List.drop_drop]
          script_eq := script_eq_step _ hI.script_eq
          transferred_eq := by
            rw [transferred_concat]
            show transferred st.reads + ((b : Int)).toNat = st.total_read + b
            rw [hI.transferred_eq]; simp
          calls := by
            intro c hc
            rcases List.mem_append.1 hc with hc | hc
            · exact hI.calls c hc
            · simp at hc; subst hc; simp; omega
          absorbed := by
            intro c hc
            rcases List.mem_append.1 hc with hc | hc
            · exact hI.absorbed c hc
            · simp at hc; subst hc
              simp [ReadCall.absorbed]
              omega
          errors := errors_concat _ hI.script_eq hI.errors (fun h => by simp at h; omega)
          chain := chain_concat _ hI.chain hI.last rfl
          last := last_concat _ (by simp) }
  · -- a pass that returns -1
    intro ev rest st ret line st1 hI ht hb
    refine ⟨st.total_read, ?_⟩
    rcases loop_body_cases S st ev with ⟨_, h1⟩ | ⟨e, he, hev, h1⟩ | ⟨n, _, _, h1⟩ | ⟨n, b, _, hbv, hb0, h1⟩
    · rw [h1] at hb; cases hb
    · rw [h1] at hb; cases hb
      exact
        { le_bytes := hI.le_bytes
          le_size := hI.le_size
          state_eq := by simp [hI.buffer_eq]
          pending_eq := hI.pending_eq
          script_eq := script_eq_step _ hI.script_eq
          transferred_eq := by
            show transferred (st.reads ++ [_]) = _
            rw [transferred_concat]; simpa using hI.transferred_eq
          calls := by
            intro c hc
            rcases List.mem_append.1 hc with hc | hc
            · exact hI.calls c hc
            · simp at hc; subst hc; simp; omega
          errors := errors_concat _ hI.script_eq hI.errors (fun _ => hev)
          chain := chain_concat _ hI.chain hI.last rfl
          last := last_concat _ (by simp)
          verdict := Or.inr ⟨rfl, ht, rfl,
            ⟨⟨st.total_read, S - st.total_read, -1, e⟩, by simp, by simp [ReadCall.absorbed, he]⟩⟩ }
    · rw [h1] at hb; cases hb
      exact
        { le_bytes := hI.le_bytes
          le_size := hI.le_size
          state_eq := by simp [hI.buffer_eq]
          pending_eq := hI.pending_eq
          script_eq := script_eq_step _ hI.script_eq
          transferred_eq := by
            show transferred (st.reads ++ [_]) = _
            rw [transferred_concat]; simpa using hI.transferred_eq
          calls := by
            intro c hc
            rcases List.mem_append.1 hc with hc | hc
            · exact hI.calls c hc
            · simp at hc; subst hc; simp; omega
          errors := errors_concat _ hI.script_eq hI.errors (fun h => by simp at h)
          chain := chain_concat _ hI.chain hI.last rfl
          last := last_concat _ (by simp)
          verdict := Or.inr ⟨rfl, ht, rfl,
            ⟨⟨st.total_read, S - st.total_read, 0, 0⟩, by simp, by simp [ReadCall.absorbed]⟩⟩ }
    · rw [h1] at hb; cases hb
  · -- the loop test fails: return 0
    intro script st hI ht
    have hk : st.total_read = S := le_antisymm hI.le_size (not_lt.1 ht)
    exact ⟨st.total_read,
      { le_bytes := hI.le_bytes
        le_size := hI.le_size
        state_eq := by simp [hI.buffer_eq]
        pending_eq := hI.pending_eq
        script_eq := hI.script_eq
        transferred_eq := hI.transferred_eq
        calls := hI.calls
        errors := hI.errors
        chain := hI.chain
        last := hI.last
        verdict := Or.inl ⟨rfl, hk, rfl, hI.absorbed⟩ }⟩

/-! ## Runs that cannot fail -/

/-- A script of benign events that is ready to deliver the outstanding bytes,
on a stream that holds them, makes the loop return 0. -/
theorem while_loop_succeeds (S : Nat) :
    ∀ (script : List ReadEvent) (st : LoopState),
      (∀ ev ∈ script, ev.benign) →
      S - st.total_read ≤ delivered script →
      S - st.total_read ≤ st.pending.length →
      ∃ o, while_loop S script st = some o ∧ o.ret = 0 := by
  intro script
  induction script with
  | nil =>
    intro st _ hd _
    have ht : ¬ st.total_read < S := by simp [delivered] at hd; omega
    exact ⟨_, while_loop_done S [] st ht, rfl⟩
  | cons ev rest ih =>
    intro st hben hd hp
    by_cases ht : st.total_read < S
    · have hrest : ∀ e ∈ rest, e.benign := fun e he => hben e (List.mem_cons_of_mem _ he)
      have hev : ev.benign := hben ev (List.mem_cons_self _ _)
      cases ev with
      | ready n =>
        have hn : 1 ≤ n := hev
        have hb0 : transfer n (S - st.total_read) st.pending ≠ 0 := by
          have hc := transfer_cases n (S - st.total_read) st.pending hp
          omega
        rw [while_loop_cons S _ rest st ht, loop_body_data S st n hb0]
        simp only [delivered] at hd
        have hc := transfer_cases n (S - st.total_read) st.pending hp
        apply ih _ hrest
        · dsimp only
          omega
        · dsimp only
          rw [List.length_drop]
          omega
      | error e =>
        have he : e = EINTR := hev
        subst he
        rw [while_loop_cons S _ rest st ht, loop_body_eintr]
        exact ih _ hrest (by simpa [delivered] using hd) hp
    · exact ⟨_, while_loop_done S _ st ht, rfl⟩

/-- A run through benign events that deliver fewer bytes than are outstanding
consumes all of them and is back at the loop test with that many more bytes. -/
theorem while_loop_benign_run (S : Nat) (rest : List ReadEvent) :
    ∀ (run : List ReadEvent) (st : LoopState),
      (∀ ev ∈ run, ev.benign) →
      st.total_read + delivered run < S →
      delivered run ≤ st.pending.length →
      ∃ st1, while_loop S (run ++ rest) st = while_loop S rest st1 ∧
        st1.total_read = st.total_read + delivered run ∧
        st1.pending = st.pending.drop (delivered run) ∧
        st1.reads.length = st.reads.length + run.length := by
  intro run
  induction run with
  | nil =>
    intro st _ _ _
    exact ⟨st, rfl, by simp [delivered], by simp [delivered], by simp⟩
  | cons ev run ih =>
    intro st hben hd hp
    have hrun : ∀ e ∈ run, e.benign := fun e he => hben e (List.mem_cons_of_mem _ he)
    have hev : ev.benign := hben ev (List.mem_cons_self _ _)
    cases ev with
    | ready n =>
      have hn : 1 ≤ n := hev
      simp only [delivered] at hd hp
      have ht : st.total_read < S := by omega
      have hb : transfer n (S - st.total_read) st.pending = n := by
        unfold transfer
        exact Nat.min_eq_left (Nat.le_min.2 ⟨by omega, by omega⟩)
      have hb0 : transfer n (S - st.total_read) st.pending ≠ 0 := by omega
      rw [List.cons_append, while_loop_cons S _ _ st ht, loop_body_data S st n hb0, hb]
      obtain ⟨st1, h1, h2, h3, h4⟩ := ih
        { total_read := st.total_read + n
          buffer := store st.buffer st.total_read (st.pending.take n)
          pending := st.pending.drop n
          reads := st.reads ++ [⟨st.total_read, S - st.total_read, n, 0⟩] }
        hrun (by show st.total_read + n + delivered run < S; omega)
        (by show delivered run ≤ (st.pending.drop n).length; rw [List.length_drop]; omega)
      refine ⟨st1, h1, ?_, ?_, ?_⟩
      · rw [h2]; simp only [delivered]; omega
      · rw [h3]; simp only [delivered, List.drop_drop]
      · rw [h4]; simp; omega
    | error e =>
      have he : e = EINTR := hev
      subst he
      simp only [delivered] at hd hp
      have ht : st.total_read < S := by omega
      rw [List.cons_append, while_loop_cons S _ _ st ht, loop_body_eintr]
      obtain ⟨st1, h1, h2, h3, h4⟩ := ih
        { st with reads := st.reads ++ [⟨st.total_read, S - st.total_read, -1, EINTR⟩] }
        hrun hd hp
      refine ⟨st1, h1, ?_, ?_, ?_⟩
      · rw [h2]; simp only [delivered]
      · rw [h3]; simp only [delivered]
      · rw [h4]; simp; omega

/-- The log of calls has no influence on what the loop does. -/
theorem while_loop_observable_reads (S : Nat) :
    ∀ (script : List ReadEvent) (t : Nat) (buf pend : List uint8_t) (r1 r2 : List ReadCall),
      (while_loop S script ⟨t, buf, pend, r1⟩).map Outcome.observable
        = (while_loop S script ⟨t, buf, pend, r2⟩).map Outcome.observable := by
  intro script
  induction script with
  | nil =>
    intro t buf pend r1 r2
    by_cases ht : t < S
    · rw [while_loop_nil S _ ht, while_loop_nil S _ ht]
    · rw [while_loop_done S _ _ ht, while_loop_done S _ _ ht]; rfl
  | cons ev rest ih =>
    intro t buf pend r1 r2
    by_cases ht : t < S
    · rw [while_loop_cons S _ _ _ ht, while_loop_cons S _ _ _ ht]
      cases ev with
      | error e =>
        by_cases he : e = EINTR
        · subst he
          rw [loop_body_eintr, loop_body_eintr]
          exact ih _ _ _ _ _
        · rw [loop_body_error _ _ _ he, loop_body_error _ _ _ he]; rfl
      | ready n =>
        by_cases hb : transfer n (S - t) pend = 0
        · rw [loop_body_closed S ⟨t, buf, pend, r1⟩ n hb,
            loop_body_closed S ⟨t, buf, pend, r2⟩ n hb]; rfl
        · rw [loop_body_data S ⟨t, buf, pend, r1⟩ n hb,
            loop_body_data S ⟨t, buf, pend, r2⟩ n hb]
          exact ih _ _ _ _ _
    · rw [while_loop_done S _ _ ht, while_loop_done S _ _ ht]; rfl

/-- An interrupted call inserted anywhere in a script changes nothing that
can be observed of the loop. -/
theorem while_loop_insert_eintr (S : Nat) (post : List ReadEvent) :
    ∀ (pre : List ReadEvent) (st : LoopState),
      (while_loop S (pre ++ .error EINTR :: post) st).map Outcome.observable
        = (while_loop S (pre ++ post) st).map Outcome.observable := by
  intro pre
  induction pre with
  | nil =>
    intro st
    by_cases ht : st.total_read < S
    · rw [List.nil_append, List.nil_append, while_loop_cons S _ _ _ ht, loop_body_eintr]
      exact while_loop_observable_reads S post _ _ _ _ _
    · rw [while_loop_done S _ _ ht, while_loop_done S _ _ ht]; rfl
  | cons ev pre ih =>
    intro st
    by_cases ht : st.total_read < S
    · rw [List.cons_append, List.cons_append, while_loop_cons S _ _ _ ht,
        while_loop_cons S _ _ _ ht]
      cases hb : loop_body S st ev with
      | next st1 => exact ih st1
      | exit ret line st1 => rfl
    · rw [while_loop_done S _ _ ht, while_loop_done S _ _ ht]; rfl

/-! ## Consequences for `read_drone_state` -/

theorem read_drone_state_some (s : Stream) (dest : List uint8_t) :
    read_drone_state s (some dest) =
      while_loop sizeof_drone_self_state s.script
        { total_read := 0, buffer := dest, pending := s.pending, reads := [] } := rfl

/-- A call that returns 0 transferred exactly one record. -/
theorem returned_of_success (s : Stream) (dest : List uint8_t) (o : Outcome)
    (h : read_drone_state s (some dest) = some o) (h0 : o.ret = 0) :
    Returned sizeof_drone_self_state s.pending dest s.script o sizeof_drone_self_state ∧
      o.cerr = [] ∧ ∀ c ∈ o.reads, c.absorbed := by
  obtain ⟨k, hk⟩ := while_loop_returned _ _ _ _ o h
  rcases hk.verdict with ⟨_, hS, hc, ha⟩ | ⟨h1, _⟩
  · subst hS; exact ⟨hk, hc, ha⟩
  · rw [h0] at h1; cases h1

/-- A call that returns -1 with a destination transferred less than a record. -/
theorem returned_of_failure (s : Stream) (dest : List uint8_t) (o : Outcome)
    (h : read_drone_state s (some dest) = some o) (h1 : o.ret = -1) :
    ∃ k, k < sizeof_drone_self_state ∧
      Returned sizeof_drone_self_state s.pending dest s.script o k := by
  obtain ⟨k, hk⟩ := while_loop_returned _ _ _ _ o h
  rcases hk.verdict with ⟨h0, _⟩ | ⟨_, hlt, _⟩
  · rw [h1] at h0; cases h0
  · exact ⟨k, hlt, hk⟩

theorem delivered_map_ready (sched : List Nat) :
    delivered (sched.map ReadEvent.ready) = sched.sum := by
  induction sched with
  | nil => rfl
  | cons n sched ih => simp [delivered, ih]

theorem benign_map_ready (sched : List Nat) (h : ∀ n ∈ sched, 1 ≤ n) :
    ∀ ev ∈ sched.map ReadEvent.ready, ev.benign := by
  intro ev hev
  obtain ⟨n, hn, rfl⟩ := List.mem_map.1 hev
  exact h n hn

/-- A benign script that is ready to deliver a record, on a stream that holds
one, makes `read_drone_state` return 0 with the record in the destination. -/
theorem read_drone_state_fills (bytes dest : List uint8_t) (script : List ReadEvent)
    (hbytes : sizeof_drone_self_state ≤ bytes.length)
    (hben : ∀ ev ∈ script, ev.benign)
    (hdel : sizeof_drone_self_state ≤ delivered script) :
    ∃ o, read_drone_state ⟨bytes, script⟩ (some dest) = some o ∧ o.ret = 0 ∧
      o.state = some (bytes.take sizeof_drone_self_state ++ dest.drop sizeof_drone_self_state) ∧
      Returned sizeof_drone_self_state bytes dest script o sizeof_drone_self_state := by
  obtain ⟨o, ho, h0⟩ := while_loop_succeeds sizeof_drone_self_state script
    { total_read := 0, buffer := dest, pending := bytes, reads := [] } hben
    (by simpa using hdel) (by simpa using hbytes)
  have hr := (returned_of_success ⟨bytes, script⟩ dest o ho h0).1
  exact ⟨o, ho, h0, hr.state_eq, hr⟩

/-- In a run over a script without failing calls every call transferred at
least one byte. -/
theorem reads_positive_of_ready (sched : List Nat) (bytes dest : List uint8_t) (o : Outcome)
    (hr : Returned sizeof_drone_self_state bytes dest (sched.map ReadEvent.ready) o
      sizeof_drone_self_state)
    (ha : ∀ c ∈ o.reads, c.absorbed) :
    ∀ c ∈ o.reads, 1 ≤ c.bytes_read ∧ c.bytes_read ≤ c.count := by
  intro c hc
  have hnn : ¬ c.bytes_read < 0 := by
    intro hneg
    have := hr.errors c hc hneg
    simp at this
  have hne := (ha c hc).1
  exact ⟨by omega, (hr.calls c hc).2.2⟩

/-- After a benign run that delivered `k` bytes, fewer than a record, a read of
zero bytes makes the call return -1 through the closed-connection branch. -/
theorem read_drone_state_closed (bytes dest : List uint8_t) (run rest : List ReadEvent)
    (n k : Nat) (hrun : ∀ ev ∈ run, ev.benign) (hdel : delivered run = k)
    (hk : k < sizeof_drone_self_state) (hbytes : k ≤ bytes.length)
    (hzero : n = 0 ∨ bytes.length = k) :
    ∃ o, read_drone_state ⟨bytes, run ++ .ready n :: rest⟩ (some dest) = some o ∧
      o.ret = -1 ∧ o.cerr = [.connection_closed] ∧
      o.stream = ⟨bytes.drop k, rest⟩ ∧ o.reads.length = run.length + 1 ∧
      o.reads.getLast? = some ⟨k, sizeof_drone_self_state - k, 0, 0⟩ := by
  subst hdel
  obtain ⟨st1, h1, h2, h3, h4⟩ := while_loop_benign_run sizeof_drone_self_state
    (.ready n :: rest) run { total_read := 0, buffer := dest, pending := bytes, reads := [] }
    hrun (by simpa using hk) hbytes
  simp only [Nat.zero_add, List.length_nil] at h2 h3 h4
  have ht : st1.total_read < sizeof_drone_self_state := by rw [h2]; exact hk
  have hz : transfer n (sizeof_drone_self_state - st1.total_read) st1.pending = 0 := by
    unfold transfer
    rw [h3, List.length_drop]
    rcases hzero with h | h
    · subst h; simp
    · rw [h]; simp
  rw [read_drone_state_some, h1, while_loop_cons _ _ _ _ ht, loop_body_closed _ _ _ hz]
  refine ⟨_, rfl, rfl, rfl, ?_, ?_, ?_⟩
  · simp only [h3]
  · simp [h4]
  · simp only [List.getLast?_concat, h2]

/-- After a benign run that delivered `k` bytes, fewer than a record, a read
failing with an `errno` other than `EINTR` makes the call return -1 through
the error branch. -/
theorem read_drone_state_error (bytes dest : List uint8_t) (run rest : List ReadEvent)
    (e k : Nat) (hrun : ∀ ev ∈ run, ev.benign) (hdel : delivered run = k)
    (hk : k < sizeof_drone_self_state) (hbytes : k ≤ bytes.length) (he : e ≠ EINTR) :
    ∃ o, read_drone_state ⟨bytes, run ++ .error e :: rest⟩ (some dest) = some o ∧
      o.ret = -1 ∧ o.cerr = [.read_error e] ∧
      o.stream = ⟨bytes.drop k, rest⟩ ∧ o.reads.length = run.length + 1 ∧
      o.reads.getLast? = some ⟨k, sizeof_drone_self_state - k, -1, e⟩ := by
  subst hdel
  obtain ⟨st1, h1, h2, h3, h4⟩ := while_loop_benign_run sizeof_drone_self_state
    (.error e :: rest) run { total_read := 0, buffer := dest, pending := bytes, reads := [] }
    hrun (by simpa using hk) hbytes
  simp only [Nat.zero_add, List.length_nil] at h2 h3 h4
  have ht : st1.total_read < sizeof_drone_self_state := by rw [h2]; exact hk
  rw [read_drone_state_some, h1, while_loop_cons _ _ _ _ ht, loop_body_error _ _ _ he]
  refine ⟨_, rfl, rfl, rfl, ?_, ?_, ?_⟩
  · simp only [h3]
  · simp [h4]
  · simp only [List.getLast?_concat, h2]

/-- The loop returns on every script that is longer than the outstanding
bytes and its interrupted calls taken together: each other call transfers at
least one byte or makes the loop return. -/
theorem while_loop_returns (S : Nat) :
    ∀ (script : List ReadEvent) (st : LoopState),
      (S - st.total_read) + interruptions script ≤ script.length →
      ∃ o, while_loop S script st = some o := by
  intro script
  induction script with
  | nil =>
    intro st h
    have ht : ¬ st.total_read < S := by simp [interruptions] at h; omega
    exact ⟨_, while_loop_done S [] st ht⟩
  | cons ev rest ih =>
    intro st h
    by_cases ht : st.total_read < S
    · rw [while_loop_cons S ev rest st ht]
      rcases loop_body_cases S st ev with ⟨hev, h1⟩ | ⟨e, _, _, h1⟩ | ⟨n, _, _, h1⟩ |
        ⟨n, b, hev, hbv, hb0, h1⟩
      · rw [h1]
        subst hev
        simp only [interruptions, List.length_cons] at h
        exact ih _ (by dsimp only; simp only [if_true] at h; omega)
      · rw [h1]; exact ⟨_, rfl⟩
      · rw [h1]; exact ⟨_, rfl⟩
      · rw [h1]
        subst hev
        simp only [interruptions, List.length_cons] at h
        exact ih _ (by dsimp only; omega)
    · exact ⟨_, while_loop_done S _ st ht⟩

/-! ## The claims -/

/-- C1: chunking is invisible. For every byte stream holding at least one full
record and every two schedules of short reads over it (each read transfers
between 1 and the requested number of bytes), `read_drone_state` returns 0
under both schedules and leaves the same bytes, the first record of the
stream, in the destination. -/
theorem chunking_invisible (bytes dest : List uint8_t) (sched1 sched2 : List Nat)
    (hbytes : sizeof_drone_self_state ≤ bytes.length)
    (hpos1 : ∀ n ∈ sched1, 1 ≤ n) (hpos2 : ∀ n ∈ sched2, 1 ≤ n)
    (hsum1 : sizeof_drone_self_state ≤ sched1.sum)
    (hsum2 : sizeof_drone_self_state ≤ sched2.sum) :
    ∃ o1 o2,
      read_drone_state ⟨bytes, sched1.map ReadEvent.ready⟩ (some dest) = some o1 ∧
      read_drone_state ⟨bytes, sched2.map ReadEvent.ready⟩ (some dest) = some o2 ∧
      (∀ c ∈ o1.reads, 1 ≤ c.bytes_read ∧ c.bytes_read ≤ c.count) ∧
      (∀ c ∈ o2.reads, 1 ≤ c.bytes_read ∧ c.bytes_read ≤ c.count) ∧
      o1.ret = 0 ∧ o2.ret = 0 ∧ o1.state = o2.state ∧
      o1.state = some (bytes.take sizeof_drone_self_state
        ++ dest.drop sizeof_drone_self_state) := by
  obtain ⟨o1, h1, r1, s1, p1⟩ := read_drone_state_fills bytes dest _ hbytes
    (benign_map_ready sched1 hpos1) (by rw [delivered_map_ready]; exact hsum1)
  obtain ⟨o2, h2, r2, s2, p2⟩ := read_drone_state_fills bytes dest _ hbytes
    (benign_map_ready sched2 hpos2) (by rw [delivered_map_ready]; exact hsum2)
  refine ⟨o1, o2, h1, h2, ?_, ?_, r1, r2, by rw [s1, s2], s1⟩
  · exact reads_positive_of_ready sched1 bytes dest o1 p1 (returned_of_success _ _ _ h1 r1).2.2
  · exact reads_positive_of_ready sched2 bytes dest o2 p2 (returned_of_success _ _ _ h2 r2).2.2

/-- Witness of C1: the bytes 0..35 read one byte at a time and in one read. -/
theorem chunking_invisible_witness :
    sizeof_drone_self_state ≤ sample_record.length ∧
    (∀ n ∈ List.replicate 36 1, 1 ≤ n) ∧ (∀ n ∈ [36], 1 ≤ n) ∧
    ∃ o1 o2,
      read_drone_state ⟨sample_record, (List.replicate 36 1).map ReadEvent.ready⟩
        (some sample_dest) = some o1 ∧
      read_drone_state ⟨sample_record, [36].map ReadEvent.ready⟩ (some sample_dest) = some o2 ∧
      (∀ c ∈ o1.reads, 1 ≤ c.bytes_read ∧ c.bytes_read ≤ c.count) ∧
      (∀ c ∈ o2.reads, 1 ≤ c.bytes_read ∧ c.bytes_read ≤ c.count) ∧
      o1.ret = 0 ∧ o2.ret = 0 ∧ o1.state = o2.state ∧
      o1.state = some (sample_record.take sizeof_drone_self_state
        ++ sample_dest.drop sizeof_drone_self_state) :=
  ⟨by decide, by decide, by decide,
    chunking_invisible sample_record sample_dest (List.replicate 36 1) [36]
      (by decide) (by decide) (by decide) (by decide) (by decide)⟩

/-- Counterexample to C2: the record is 36 bytes long, not 26; a stream that
supplies 26 bytes in reads of 10 and 16 bytes leaves the call waiting in a
third read, and makes it return -1 if the peer closes then. -/
theorem record_size_26_counterexample :
    sizeof_drone_self_state = 36 ∧
    read_drone_state ⟨sample_short, [.ready 10, .ready 16]⟩ (some sample_dest) = none ∧
    (read_drone_state ⟨sample_short, [.ready 10, .ready 16, .ready 0]⟩ (some sample_dest)).map
      (fun o => (o.ret, o.cerr)) = some (-1, [.connection_closed]) := by
  decide

/-- C2, amended: the record's fixed wire size, the number of bytes
`read_drone_state` accumulates before it returns 0, is 36 bytes; a stream that
supplies 36 bytes in two reads of 10 and 26 bytes makes the call return 0 with
these bytes in the destination. -/
theorem record_size_36 (bytes dest : List uint8_t)
    (hbytes : bytes.length = 36) (hdest : dest.length = 36) :
    sizeof_drone_self_state = 36 ∧
    ∃ o, read_drone_state ⟨bytes, [.ready 10, .ready 26]⟩ (some dest) = some o ∧
      o.ret = 0 ∧ o.state = some bytes ∧ transferred o.reads = 36 ∧
      o.reads = [⟨0, 36, 10, 0⟩, ⟨10, 26, 26, 0⟩] := by
  refine ⟨sizeof_drone_self_state_eq, ?_⟩
  obtain ⟨o, ho, h0, hs, hr⟩ := read_drone_state_fills bytes dest [.ready 10, .ready 26]
    (by rw [sizeof_drone_self_state_eq, hbytes]) (by decide) (by decide)
  refine ⟨o, ho, h0, ?_, ?_, ?_⟩
  · rw [hs, sizeof_drone_self_state_eq, List.take_of_length_le (by omega),
      List.drop_eq_nil_of_le (by omega), List.append_nil]
  · rw [hr.transferred_eq, sizeof_drone_self_state_eq]
  · have hlen : bytes.length = 36 := hbytes
    rw [read_drone_state_some] at ho
    simp [sizeof_drone_self_state_eq, while_loop, loop_body, transfer, hlen] at ho
    rw [← ho]

/-- Witness of the amended C2 on the bytes 0..35. -/
theorem record_size_36_witness :
    sample_record.length = 36 ∧ sample_dest.length = 36 ∧ sizeof_drone_self_state = 36 ∧
    ∃ o, read_drone_state ⟨sample_record, [.ready 10, .ready 26]⟩ (some sample_dest) = some o ∧
      o.ret = 0 ∧ o.state = some sample_record ∧ transferred o.reads = 36 ∧
      o.reads = [⟨0, 36, 10, 0⟩, ⟨10, 26, 26, 0⟩] :=
  ⟨by decide, by decide, record_size_36 sample_record sample_dest (by decide) (by decide)⟩

/-- Counterexample to C3: the peer closes after 10 of the 36 bytes; the call
returns -1 and the destination, filled with 255 before the call, now starts
with the bytes 0..9. -/
theorem partial_bytes_exposed_counterexample :
    ∃ o, read_drone_state ⟨sample_record, [.ready 10, .ready 0]⟩ (some sample_dest) = some o ∧
      o.ret = -1 ∧ o.cerr = [.connection_closed] ∧ o.state ≠ some sample_dest ∧
      o.state = some (sample_record.take 10 ++ sample_dest.drop 10) := by
  refine ⟨_, rfl, ?_, ?_, ?_, ?_⟩ <;> decide

/-- C3, amended: when `read_drone_state` fails because of a premature close or
a non-transient I/O error after `k` bytes were accumulated, these `k` bytes
stay in the destination: its first `k` bytes are the first `k` bytes of the
stream, its bytes from offset `k` on are what they were before the call, and
`k` is less than the record size. The destination is the same after the call
as before it when `k = 0`. -/
theorem failure_leaves_partial_bytes (s : Stream) (dest : List uint8_t) (o : Outcome)
    (h : read_drone_state s (some dest) = some o) (hfail : o.ret = -1) :
    ∃ k, k < sizeof_drone_self_state ∧ k ≤ s.pending.length ∧ transferred o.reads = k ∧
      o.state = some (s.pending.take k ++ dest.drop k) ∧
      (k = 0 → o.state = some dest) := by
  obtain ⟨k, hk, hr⟩ := returned_of_failure s dest o h hfail
  refine ⟨k, hk, hr.le_bytes, hr.transferred_eq, hr.state_eq, ?_⟩
  intro h0
  rw [hr.state_eq, h0]
  simp

/-- Witness of the amended C3: a hard error (`EIO`) after 10 bytes. -/
theorem failure_leaves_partial_bytes_witness :
    ∃ o, read_drone_state ⟨sample_record, [.ready 10, .error 5]⟩ (some sample_dest) = some o ∧
      o.ret = -1 ∧
      ∃ k, k < sizeof_drone_self_state ∧ k ≤ sample_record.length ∧ transferred o.reads = k ∧
        o.state = some (sample_record.take k ++ sample_dest.drop k) ∧
        (k = 0 → o.state = some sample_dest) := by
  refine ⟨_, rfl, by decide, ?_⟩
  exact failure_leaves_partial_bytes ⟨sample_record, [.ready 10, .error 5]⟩ sample_dest _ rfl
    (by decide)

/-- C4: interruptions are absorbed. A read failing with `EINTR` inserted at any
position of any script changes neither whether the call returns, nor the
returned value, the destination bytes, the lines on `std::cerr` or the bytes
left in the stream. The pass through the loop body for the interrupted read
leaves the fill offset, the buffer and the pending bytes as they were, and in
the log of every call that returns, a read that follows a failed (hence
interrupted) read has the same offset and the same requested length. -/
theorem eintr_absorbed (bytes : List uint8_t) (pre post : List ReadEvent)
    (state : Option (List uint8_t)) :
    (read_drone_state ⟨bytes, pre ++ .error EINTR :: post⟩ state).map Outcome.observable
      = (read_drone_state ⟨bytes, pre ++ post⟩ state).map Outcome.observable ∧
    (∀ (S : Nat) (st : LoopState), ∃ st1,
      loop_body S st (.error EINTR) = .next st1 ∧ st1.total_read = st.total_read ∧
      st1.buffer = st.buffer ∧ st1.pending = st.pending ∧
      st1.reads = st.reads ++ [⟨st.total_read, S - st.total_read, -1, EINTR⟩]) ∧
    (∀ o, read_drone_state ⟨bytes, pre ++ .error EINTR :: post⟩ state = some o →
      o.reads.Chain' (fun c d => c.bytes_read < 0 → d.offset = c.offset ∧ d.count = c.count)) := by
  refine ⟨?_, ?_, ?_⟩
  · cases state with
    | none => rfl
    | some dest => exact while_loop_insert_eintr _ post pre _
  · intro S st
    exact ⟨_, loop_body_eintr S st, rfl, rfl, rfl, rfl⟩
  · intro o ho
    cases state with
    | none => cases ho; exact List.chain'_nil
    | some dest =>
      obtain ⟨k, hr⟩ := while_loop_returned _ _ _ _ o ho
      have hcalls := hr.calls
      refine (List.Chain'.iff_mem.1 hr.chain).imp ?_
      rintro c d ⟨hc, hd, hf⟩ hneg
      have hoff : d.offset = c.offset := by
        unfold ReadCall.follows at hf
        rw [hf, Int.toNat_eq_zero.2 (by omega)]; rfl
      refine ⟨hoff, ?_⟩
      rw [(hcalls c hc).2.1, (hcalls d hd).2.1, hoff]

/-- Instance of C4: an interruption between reads of 10 and 26 bytes. -/
theorem eintr_absorbed_witness :
    ∃ o, read_drone_state ⟨sample_record, [.ready 10] ++ .error EINTR :: [.ready 26]⟩
        (some sample_dest) = some o ∧
      o.reads = [⟨0, 36, 10, 0⟩, ⟨10, 26, -1, EINTR⟩, ⟨10, 26, 26, 0⟩] ∧
      o.reads.Chain' (fun c d => c.bytes_read < 0 → d.offset = c.offset ∧ d.count = c.count) := by
  refine ⟨_, rfl, by decide, ?_⟩
  exact (eintr_absorbed sample_record [.ready 10] [.ready 26] (some sample_dest)).2.2 _ rfl

/-- C5: for every prefix length `k` smaller than the record size (`k = 0`
included), a stream that delivers `k` bytes and then reports a read of zero
bytes makes `read_drone_state` fail through its closed-connection branch: it
returns -1 after the line "Serial connection closed unexpectedly.", and the
zero-byte read, issued at offset `k` for the missing bytes, is the last one:
the rest of the script is left untouched. -/
theorem closed_after_prefix (bytes dest : List uint8_t) (run rest : List ReadEvent)
    (n k : Nat) (hrun : ∀ ev ∈ run, ev.benign) (hdel : delivered run = k)
    (hk : k < sizeof_drone_self_state) (hbytes : k ≤ bytes.length)
    (hzero : n = 0 ∨ bytes.length = k) :
    ∃ o, read_drone_state ⟨bytes, run ++ .ready n :: rest⟩ (some dest) = some o ∧
      o.ret = -1 ∧ o.cerr = [.connection_closed] ∧
      o.stream = ⟨bytes.drop k, rest⟩ ∧ o.reads.length = run.length + 1 ∧
      o.reads.getLast? = some ⟨k, sizeof_drone_self_state - k, 0, 0⟩ :=
  read_drone_state_closed bytes dest run rest n k hrun hdel hk hbytes hzero

/-- Witness of C5: 10 of 36 bytes, then the peer closes; the two events after
the zero-byte read are not consumed. -/
theorem closed_after_prefix_witness :
    (∀ ev ∈ [ReadEvent.ready 4, .error EINTR, .ready 6], ev.benign) ∧
    delivered [.ready 4, .error EINTR, .ready 6] = 10 ∧
    ∃ o, read_drone_state
        ⟨sample_record, [.ready 4, .error EINTR, .ready 6] ++ .ready 0 :: [.ready 26, .ready 1]⟩
        (some sample_dest) = some o ∧
      o.ret = -1 ∧ o.cerr = [.connection_closed] ∧
      o.stream = ⟨sample_record.drop 10, [.ready 26, .ready 1]⟩ ∧
      o.reads.length = [ReadEvent.ready 4, .error EINTR, .ready 6].length + 1 ∧
      o.reads.getLast? = some ⟨10, sizeof_drone_self_state - 10, 0, 0⟩ :=
  ⟨by decide, by decide,
    closed_after_prefix sample_record sample_dest [.ready 4, .error EINTR, .ready 6]
      [.ready 26, .ready 1] 0 10 (by decide) (by decide) (by decide) (by decide)
      (Or.inl rfl)⟩

/-- Counterexample to C6: an I/O error (`EIO`), another I/O error (`EBADF`), a
closed connection and a null destination all hand the same value -1 to the
caller, who receives nothing else; the error detail only reaches
`std::cerr`. -/
theorem failure_kinds_counterexample :
    (read_drone_state ⟨sample_record, [.ready 10, .error 5]⟩ (some sample_dest)).map
      Outcome.ret = some (-1) ∧
    (read_drone_state ⟨sample_record, [.ready 10, .error 9]⟩ (some sample_dest)).map
      Outcome.ret = some (-1) ∧
    (read_drone_state ⟨sample_record, [.ready 10, .ready 0]⟩ (some sample_dest)).map
      Outcome.ret = some (-1) ∧
    (read_drone_state ⟨sample_record, [.ready 10, .error 5]⟩ none).map
      Outcome.ret = some (-1) := by
  decide

/-- C6, amended: for every number `k` of bytes already accumulated (less than
the record size), a read that reports an error other than `EINTR` makes
`read_drone_state` return -1 at once, after one line on `std::cerr` that
carries the error detail; the failing read is the last one (no retry, the
rest of the script is untouched). The returned value is the one the call
returns for a closed connection at the same point and for a null
destination. -/
theorem io_error_returns_minus_one (bytes dest : List uint8_t) (run rest : List ReadEvent)
    (e k : Nat) (hrun : ∀ ev ∈ run, ev.benign) (hdel : delivered run = k)
    (hk : k < sizeof_drone_self_state) (hbytes : k ≤ bytes.length) (he : e ≠ EINTR) :
    ∃ o, read_drone_state ⟨bytes, run ++ .error e :: rest⟩ (some dest) = some o ∧
      o.ret = -1 ∧ o.cerr = [.read_error e] ∧
      o.stream = ⟨bytes.drop k, rest⟩ ∧ o.reads.length = run.length + 1 ∧
      o.reads.getLast? = some ⟨k, sizeof_drone_self_state - k, -1, e⟩ ∧
      (read_drone_state ⟨bytes, run ++ .ready 0 :: rest⟩ (some dest)).map Outcome.ret
        = some o.ret ∧
      (read_drone_state ⟨bytes, run ++ .error e :: rest⟩ none).map Outcome.ret = some o.ret := by
  obtain ⟨o, ho, h1, h2, h3, h4, h5⟩ :=
    read_drone_state_error bytes dest run rest e k hrun hdel hk hbytes he
  obtain ⟨o2, ho2, hr2, _⟩ :=
    read_drone_state_closed bytes dest run rest 0 k hrun hdel hk hbytes (Or.inl rfl)
  refine ⟨o, ho, h1, h2, h3, h4, h5, ?_, ?_⟩
  · rw [ho2, h1, Option.map_some', hr2]
  · rw [h1]; rfl

/-- Witness of the amended C6: `EIO` after 10 of 36 bytes. -/
theorem io_error_returns_minus_one_witness :
    (∀ ev ∈ [ReadEvent.ready 10], ev.benign) ∧ (5 : Nat) ≠ EINTR ∧
    ∃ o, read_drone_state ⟨sample_record, [.ready 10] ++ .error 5 :: [.ready 26]⟩
        (some sample_dest) = some o ∧
      o.ret = -1 ∧ o.cerr = [.read_error 5] ∧
      o.stream = ⟨sample_record.drop 10, [.ready 26]⟩ ∧
      o.reads.length = [ReadEvent.ready 10].length + 1 ∧
      o.reads.getLast? = some ⟨10, sizeof_drone_self_state - 10, -1, 5⟩ ∧
      (read_drone_state ⟨sample_record, [.ready 10] ++ .ready 0 :: [.ready 26]⟩
        (some sample_dest)).map Outcome.ret = some o.ret ∧
      (read_drone_state ⟨sample_record, [.ready 10] ++ .error 5 :: [.ready 26]⟩ none).map
        Outcome.ret = some o.ret :=
  ⟨by decide, by decide,
    io_error_returns_minus_one sample_record sample_dest [.ready 10] [.ready 26] 5 10
      (by decide) (by decide) (by decide) (by decide) (by decide)⟩

/-- C7: with a null destination `read_drone_state` returns -1 at once: no read
is issued, nothing is written to `std::cerr`, and the stream (pending bytes
and remaining read results) is exactly what it was, for every stream. -/
theorem null_destination (s : Stream) :
    read_drone_state s none =
      some { ret := -1, state := none, stream := s, cerr := [], reads := [] } :=
  rfl

/-- C8: `read_drone_state` returns 0 on success and -1 on failure. Whenever it
returns, the value is 0 or -1, and it is 0 exactly when the destination is
not null and the reads it issued transferred `sizeof(struct drone_self_state)`
bytes without any of them being a zero-byte read or a failure other than
`EINTR`. It does return on every script longer than the record size plus the
number of interrupted reads. -/
theorem return_value (s : Stream) (state : Option (List uint8_t)) (o : Outcome)
    (h : read_drone_state s state = some o) :
    (o.ret = 0 ∨ o.ret = -1) ∧
    (o.ret = 0 ↔ state ≠ none ∧ transferred o.reads = sizeof_drone_self_state ∧
      ∀ c ∈ o.reads, c.bytes_read ≠ 0 ∧ (c.bytes_read < 0 → c.errno = EINTR)) ∧
    (∀ (s1 : Stream) (state1 : Option (List uint8_t)),
      sizeof_drone_self_state + interruptions s1.script ≤ s1.script.length →
      ∃ o1, read_drone_state s1 state1 = some o1) := by
  refine ⟨?_, ?_, ?_⟩
  · cases state with
    | none => cases h; exact Or.inr rfl
    | some dest =>
      obtain ⟨k, hr⟩ := while_loop_returned _ _ _ _ o h
      rcases hr.verdict with ⟨h0, _⟩ | ⟨h1, _⟩
      · exact Or.inl h0
      · exact Or.inr h1
  · cases state with
    | none => cases h; simp
    | some dest =>
      obtain ⟨k, hr⟩ := while_loop_returned _ _ _ _ o h
      rcases hr.verdict with ⟨h0, hk, _, ha⟩ | ⟨h1, hk, _, c, hc, hbad⟩
      · refine ⟨fun _ => ⟨by simp, by rw [hr.transferred_eq, hk], ha⟩, fun _ => h0⟩
      · constructor
        · intro h0; rw [h1] at h0; cases h0
        · rintro ⟨_, _, hall⟩
          exact absurd (hall c hc) hbad
  · intro s1 state1 hlen
    cases state1 with
    | none => exact ⟨_, rfl⟩
    | some dest1 => exact while_loop_returns _ _ _ (by simpa using hlen)

/-- Witness of C8: a call that returns 0 after an interruption. -/
theorem return_value_witness :
    ∃ o, read_drone_state ⟨sample_record, [.ready 10, .error EINTR, .ready 26]⟩
        (some sample_dest) = some o ∧
      (o.ret = 0 ∨ o.ret = -1) ∧
      (o.ret = 0 ↔ some sample_dest ≠ none ∧ transferred o.reads = sizeof_drone_self_state ∧
        ∀ c ∈ o.reads, c.bytes_read ≠ 0 ∧ (c.bytes_read < 0 → c.errno = EINTR)) ∧
      (∀ (s1 : Stream) (state1 : Option (List uint8_t)),
        sizeof_drone_self_state + interruptions s1.script ≤ s1.script.length →
        ∃ o1, read_drone_state s1 state1 = some o1) := by
  refine ⟨_, rfl, ?_⟩
  exact return_value ⟨sample_record, [.ready 10, .error EINTR, .ready 26]⟩ (some sample_dest) _ rfl

/-- C9: on success `read_drone_state` consumes exactly one record from the
stream: the byte counts returned by its reads sum to the record size, every
read was issued at an offset below the record size for no more than the
missing bytes (none once the buffer is full: the last read ends at the record
size and the script after it is untouched), and the bytes of the stream after
the first record are left unread. -/
theorem success_consumes_one_record (s : Stream) (dest : List uint8_t) (o : Outcome)
    (h : read_drone_state s (some dest) = some o) (h0 : o.ret = 0) :
    transferred o.reads = sizeof_drone_self_state ∧
    (∀ c ∈ o.reads, c.offset < sizeof_drone_self_state ∧
      c.count = sizeof_drone_self_state - c.offset ∧ c.bytes_read ≤ c.count) ∧
    (∀ c ∈ o.reads.getLast?, c.offset + c.bytes_read.toNat = sizeof_drone_self_state) ∧
    (∃ consumed, s.script = consumed ++ o.stream.script ∧ consumed.length = o.reads.length) ∧
    sizeof_drone_self_state ≤ s.pending.length ∧
    o.stream.pending = s.pending.drop sizeof_drone_self_state := by
  have hr := (returned_of_success s dest o h h0).1
  exact ⟨hr.transferred_eq, hr.calls, hr.last, hr.script_eq, hr.le_bytes, hr.pending_eq⟩

/-- Witness of C9: two records in the stream, the second one is left unread
together with the unused read result. -/
theorem success_consumes_one_record_witness :
    ∃ o, read_drone_state ⟨sample_record ++ sample_record, [.ready 10, .ready 40, .ready 7]⟩
        (some sample_dest) = some o ∧ o.ret = 0 ∧
      o.stream = ⟨sample_record, [.ready 7]⟩ ∧
      transferred o.reads = sizeof_drone_self_state ∧
      (∀ c ∈ o.reads, c.offset < sizeof_drone_self_state ∧
        c.count = sizeof_drone_self_state - c.offset ∧ c.bytes_read ≤ c.count) ∧
      (∀ c ∈ o.reads.getLast?, c.offset + c.bytes_read.toNat = sizeof_drone_self_state) ∧
      (∃ consumed, [ReadEvent.ready 10, .ready 40, .ready 7] = consumed ++ o.stream.script ∧
        consumed.length = o.reads.length) ∧
      sizeof_drone_self_state ≤ (sample_record ++ sample_record).length ∧
      o.stream.pending = (sample_record ++ sample_record).drop sizeof_drone_self_state := by
  refine ⟨_, rfl, by decide, by decide, ?_⟩
  exact success_consumes_one_record
    ⟨sample_record ++ sample_record, [.ready 10, .ready 40, .ready 7]⟩ sample_dest _ rfl
    (by decide)

/-- C10: framing is lossless, order-preserving and value-agnostic. For every
byte sequence of exactly the record's length at the head of the stream,
whatever its content, and every benign script that is ready to deliver it,
`read_drone_state` returns 0 and the destination's bytes, in order, are the
delivered bytes. -/
theorem framing_lossless (bytes tail dest : List uint8_t) (script : List ReadEvent)
    (hbytes : bytes.length = sizeof_drone_self_state)
    (hdest : dest.length = sizeof_drone_self_state)
    (hben : ∀ ev ∈ script, ev.benign)
    (hdel : sizeof_drone_self_state ≤ delivered script) :
    ∃ o, read_drone_state ⟨bytes ++ tail, script⟩ (some dest) = some o ∧
      o.ret = 0 ∧ o.state = some bytes ∧ o.stream.pending = tail := by
  obtain ⟨o, ho, h0, hs, hr⟩ := read_drone_state_fills (bytes ++ tail) dest script
    (by simp; omega) hben hdel
  refine ⟨o, ho, h0, ?_, ?_⟩
  · rw [hs, ← hbytes, List.take_left, hbytes, List.drop_eq_nil_of_le (by omega),
      List.append_nil]
  · rw [hr.pending_eq, ← hbytes, List.drop_left]

/-- Witness of C10: the bytes 0..35 delivered in three reads with an
interruption, nothing after them. -/
theorem framing_lossless_witness :
    sample_record.length = sizeof_drone_self_state ∧
    sample_dest.length = sizeof_drone_self_state ∧
    (∀ ev ∈ [ReadEvent.ready 1, .error EINTR, .ready 20, .ready 15], ev.benign) ∧
    sizeof_drone_self_state ≤ delivered [.ready 1, .error EINTR, .ready 20, .ready 15] ∧
    ∃ o, read_drone_state ⟨sample_record ++ [], [.ready 1, .error EINTR, .ready 20, .ready 15]⟩
        (some sample_dest) = some o ∧
      o.ret = 0 ∧ o.state = some sample_record ∧ o.stream.pending = [] :=
  ⟨by decide, by decide, by decide, by decide,
    framing_lossless sample_record [] sample_dest [.ready 1, .error EINTR, .ready 20, .ready 15]
      (by decide) (by decide) (by decide) (by decide)⟩

/-! ## Layout lemmas -/

/-- A slice that lies inside the first `n` elements of a list is not changed
by cutting the list at `n` and appending something else. -/
theorem slice_take_append {α : Type} (l x : List α) (n off ext : Nat)
    (h : off + ext ≤ n) (hn : n ≤ l.length) :
    ((l.take n ++ x).drop off).take ext = (l.drop off).take ext := by
  have hl : (l.take n).length = n := by simp; omega
  rw [List.drop_append_of_le_length (by omega),
    List.take_append_of_le_length (by rw [List.length_drop, hl]; omega),
    List.drop_take, List.take_take, Nat.min_eq_left (by omega)]

theorem members_inside :
    ∀ m ∈ drone_self_state, offsetof m.1 + extent m.1 ≤ sizeof_drone_self_state := by
  decide

/-- C11: the record is byte-packed in declaration order. Each member starts at
the sum of the widths of the members before it, which gives id 0, lat 2,
lon 6, alt 10, velocity_north 14, velocity_east 18, velocity_down 22,
heading 26, sm_current_stat 30, battery_precentages 32 and byte 34 for the
three bit-fields of the shared unit, 36 bytes in all; after a call that
returns 0 the bytes of every member in the destination are the bytes of the
stream at the member's offset and width. -/
theorem layout_packed (bytes dest : List uint8_t) (script : List ReadEvent)
    (hbytes : sizeof_drone_self_state ≤ bytes.length)
    (hben : ∀ ev ∈ script, ev.benign)
    (hdel : sizeof_drone_self_state ≤ delivered script) :
    drone_self_state.map (fun m => (m.1, offsetof m.1)) =
      [("id", 0), ("lat", 2), ("lon", 6), ("alt", 10), ("velocity_north", 14),
       ("velocity_east", 18), ("velocity_down", 22), ("heading", 26),
       ("sm_current_stat", 30), ("battery_precentages", 32),
       ("drones_keep_alive", 34), ("gps_3d_fix", 34), ("padding", 34)] ∧
    drone_self_state.map (fun m => bit_offset_of drone_self_state m.1) =
      (List.range drone_self_state.length).map
        (fun i => ((drone_self_state.take i).map Prod.snd).sum) ∧
    drone_self_state.map (fun m => extent m.1) = [2, 4, 4, 4, 4, 4, 4, 4, 2, 2, 1, 1, 2] ∧
    sizeof_drone_self_state = offsetof "padding" + extent "padding" ∧
    ∃ o st, read_drone_state ⟨bytes, script⟩ (some dest) = some o ∧ o.ret = 0 ∧
      o.state = some st ∧
      ∀ m ∈ drone_self_state,
        member_bytes st m.1 = (bytes.drop (offsetof m.1)).take (extent m.1) := by
  refine ⟨by decide, by decide, by decide, by decide, ?_⟩
  obtain ⟨o, ho, h0, hs, _⟩ := read_drone_state_fills bytes dest script hbytes hben hdel
  refine ⟨o, _, ho, h0, hs, ?_⟩
  intro m hm
  exact slice_take_append bytes _ _ _ _ (members_inside m hm) hbytes

/-- Witness of C11: the bytes 0..35 delivered in reads of 10 and 26 bytes. -/
theorem layout_packed_witness :
    sizeof_drone_self_state ≤ sample_record.length ∧
    (∀ ev ∈ [ReadEvent.ready 10, .ready 26], ev.benign) ∧
    sizeof_drone_self_state ≤ delivered [.ready 10, .ready 26] ∧
    ∃ o st, read_drone_state ⟨sample_record, [.ready 10, .ready 26]⟩ (some sample_dest)
        = some o ∧ o.ret = 0 ∧ o.state = some st ∧
      ∀ m ∈ drone_self_state,
        member_bytes st m.1 = (sample_record.drop (offsetof m.1)).take (extent m.1) :=
  ⟨by decide, by decide, by decide,
    (layout_packed sample_record sample_dest [.ready 10, .ready 26]
      (by decide) (by decide) (by decide)).2.2.2.2⟩

/-! ## The shared storage unit -/

theorem keep_alive_bits (t : Target) (u : Nat) :
    member_bits t u "drones_keep_alive" =
      match t with
      | .little => u % 16
      | .big => (u / 4096) % 16 := by
  have hp : unit_pos "drones_keep_alive" = 0 := by decide
  have hw : width_of drone_self_state "drones_keep_alive" = 4 := by decide
  unfold member_bits bit_field
  rw [hp, hw]
  cases t <;> simp

theorem gps_bits (t : Target) (u : Nat) :
    member_bits t u "gps_3d_fix" =
      match t with
      | .little => (u / 16) % 2
      | .big => (u / 2048) % 2 := by
  have hp : unit_pos "gps_3d_fix" = 4 := by decide
  have hw : width_of drone_self_state "gps_3d_fix" = 1 := by decide
  unfold member_bits bit_field
  rw [hp, hw]
  cases t <;> simp

theorem padding_bits (t : Target) (u : Nat) :
    member_bits t u "padding" =
      match t with
      | .little => (u / 32) % 2048
      | .big => u % 2048 := by
  have hp : unit_pos "padding" = 5 := by decide
  have hw : width_of drone_self_state "padding" = 11 := by decide
  unfold member_bits bit_field
  rw [hp, hw]
  cases t <;> simp

theorem drones_keep_alive_eq (t : Target) (u : Nat) :
    drones_keep_alive t u =
      if member_bits t u "drones_keep_alive" < 8 then
        (member_bits t u "drones_keep_alive" : Int)
      else (member_bits t u "drones_keep_alive" : Int) - 16 := by
  have hw : width_of drone_self_state "drones_keep_alive" = 4 := by decide
  unfold drones_keep_alive sign_extend
  rw [hw]
  norm_num

theorem gps_3d_fix_eq (t : Target) (u : Nat) :
    gps_3d_fix t u =
      if member_bits t u "gps_3d_fix" < 1 then (member_bits t u "gps_3d_fix" : Int)
      else (member_bits t u "gps_3d_fix" : Int) - 2 := by
  have hw : width_of drone_self_state "gps_3d_fix" = 1 := by decide
  unfold gps_3d_fix sign_extend
  rw [hw]
  norm_num

/-- Counterexample to C12: on a little-endian target the unit 0xF000, whose 4
most significant bits are all set, has no keep-alive bit set, and the unit
0x0800, whose next bit below them is set, has `gps_3d_fix` clear; the
keep-alive bits are the low nibble of the first byte of the unit. -/
theorem keep_alive_msb_counterexample :
    member_bits .little 0xF000 "drones_keep_alive" = 0 ∧ 0xF000 / 4096 = 15 ∧
    member_bits .little 0x0800 "gps_3d_fix" = 0 ∧ (0x0800 / 2048) % 2 = 1 ∧
    storage_unit .little (List.replicate 34 0 ++ [0x0F, 0x00]) = 0x000F ∧
    member_bits .little 0x000F "drones_keep_alive" = 15 := by
  decide

/-- C12, amended: the last three members share one 16-bit storage unit
(4 + 1 + 11 = 16 bits, the final two bytes of the record) and are allocated in
it in declaration order, from the end at which the target starts: on a target
that allocates from the most significant bit `drones_keep_alive` is the 4 most
significant bits and `gps_3d_fix` the bit below them; on a target that
allocates from the least significant bit `drones_keep_alive` is the 4 least
significant bits and `gps_3d_fix` the bit above them. On both the remaining
11 bits are filler: the unit is made of the three bit patterns, and whatever
filler `pad` is put in their place the values read from `drones_keep_alive`
and `gps_3d_fix` are the same. -/
theorem bit_fields_share_unit (t : Target) (u pad : Nat) (hu : u < 65536) (hpad : pad < 2048) :
    width_of drone_self_state "drones_keep_alive" + width_of drone_self_state "gps_3d_fix"
      + width_of drone_self_state "padding" = 16 ∧
    offsetof "drones_keep_alive" = sizeof_drone_self_state - 2 ∧
    offsetof "gps_3d_fix" = sizeof_drone_self_state - 2 ∧
    offsetof "padding" = sizeof_drone_self_state - 2 ∧
    (t = .big → member_bits t u "drones_keep_alive" = u / 4096 ∧
      member_bits t u "gps_3d_fix" = (u / 2048) % 2 ∧ member_bits t u "padding" = u % 2048) ∧
    (t = .little → member_bits t u "drones_keep_alive" = u % 16 ∧
      member_bits t u "gps_3d_fix" = (u / 16) % 2 ∧ member_bits t u "padding" = u / 32) ∧
    u = pack_unit t (member_bits t u "drones_keep_alive") (member_bits t u "gps_3d_fix")
      (member_bits t u "padding") ∧
    drones_keep_alive t (pack_unit t (member_bits t u "drones_keep_alive")
      (member_bits t u "gps_3d_fix") pad) = drones_keep_alive t u ∧
    gps_3d_fix t (pack_unit t (member_bits t u "drones_keep_alive")
      (member_bits t u "gps_3d_fix") pad) = gps_3d_fix t u := by
  refine ⟨by decide, by decide, by decide, by decide, ?_, ?_, ?_, ?_, ?_⟩
  · rintro rfl
    rw [keep_alive_bits, gps_bits, padding_bits]
    refine ⟨?_, rfl, rfl⟩
    show u / 4096 % 16 = u / 4096
    omega
  · rintro rfl
    rw [keep_alive_bits, gps_bits, padding_bits]
    refine ⟨rfl, rfl, ?_⟩
    show u / 32 % 2048 = u / 32
    omega
  · rw [keep_alive_bits, gps_bits, padding_bits]
    cases t <;> simp only [pack_unit] <;> omega
  · rw [drones_keep_alive_eq, drones_keep_alive_eq]
    simp only [keep_alive_bits, gps_bits]
    have h : ∀ a b : Nat, a = b → (if a < 8 then (a : Int) else (a : Int) - 16)
        = if b < 8 then (b : Int) else (b : Int) - 16 := fun a b h => by rw [h]
    apply h
    cases t <;> simp only [pack_unit] <;> omega
  · rw [gps_3d_fix_eq, gps_3d_fix_eq]
    simp only [keep_alive_bits, gps_bits]
    have h : ∀ a b : Nat, a = b → (if a < 1 then (a : Int) else (a : Int) - 2)
        = if b < 1 then (b : Int) else (b : Int) - 2 := fun a b h => by rw [h]
    apply h
    cases t <;> simp only [pack_unit] <;> omega

/-- Witness of the amended C12: the unit 0x9ABC on a little-endian target, with
every filler bit set instead. -/
theorem bit_fields_share_unit_witness :
    (0x9ABC : Nat) < 65536 ∧ (2047 : Nat) < 2048 ∧
    member_bits .little 0x9ABC "drones_keep_alive" = 0x9ABC % 16 ∧
    drones_keep_alive .little (pack_unit .little (member_bits .little 0x9ABC "drones_keep_alive")
      (member_bits .little 0x9ABC "gps_3d_fix") 2047) = drones_keep_alive .little 0x9ABC ∧
    gps_3d_fix .little (pack_unit .little (member_bits .little 0x9ABC "drones_keep_alive")
      (member_bits .little 0x9ABC "gps_3d_fix") 2047) = gps_3d_fix .little 0x9ABC :=
  have h := bit_fields_share_unit .little 0x9ABC 2047 (by decide) (by decide)
  ⟨by decide, by decide, (h.2.2.2.2.2.1 rfl).1, h.2.2.2.2.2.2.2.1, h.2.2.2.2.2.2.2.2⟩

/-- Counterexample to C13: with every bit of the unit set, on either target,
`drones_keep_alive` reads -1, outside 0..15, and `gps_3d_fix` reads -1, which
is neither 0 nor 1. -/
theorem bit_field_values_counterexample :
    drones_keep_alive .little 0xFFFF = -1 ∧ gps_3d_fix .little 0xFFFF = -1 ∧
    drones_keep_alive .big 0xFFFF = -1 ∧ gps_3d_fix .big 0xFFFF = -1 ∧
    member_bits .little 0xFFFF "gps_3d_fix" = 1 ∧ member_bits .big 0xFFFF "gps_3d_fix" = 1 := by
  decide

/-- C13, amended: the two bit-fields have the signed type `int16_t`. For every
value of the shared storage unit, on either target, `drones_keep_alive`
decodes as a 4-bit two's complement number: it lies in -8..7 and its residue
modulo 16, in 0..15, is the bit pattern of the four flags; `gps_3d_fix`
decodes as 0 or -1, -1 exactly when its bit is set and 0 exactly when it is
clear. -/
theorem bit_field_values (t : Target) (u : Nat) :
    -8 ≤ drones_keep_alive t u ∧ drones_keep_alive t u ≤ 7 ∧
    member_bits t u "drones_keep_alive" < 16 ∧
    drones_keep_alive t u % 16 = (member_bits t u "drones_keep_alive" : Int) ∧
    (gps_3d_fix t u = 0 ∨ gps_3d_fix t u = -1) ∧
    (gps_3d_fix t u = -1 ↔ member_bits t u "gps_3d_fix" = 1) ∧
    (gps_3d_fix t u = 0 ↔ member_bits t u "gps_3d_fix" = 0) := by
  have hk : member_bits t u "drones_keep_alive" < 16 := by
    rw [keep_alive_bits]; cases t <;> simp only <;> omega
  have hg : member_bits t u "gps_3d_fix" < 2 := by
    rw [gps_bits]; cases t <;> simp only <;> omega
  rw [drones_keep_alive_eq, gps_3d_fix_eq]
  generalize member_bits t u "drones_keep_alive" = k at hk
  generalize member_bits t u "gps_3d_fix" = g at hg
  refine ⟨?_, ?_, hk, ?_, ?_, ?_, ?_⟩
  · split_ifs <;> omega
  · split_ifs <;> omega
  · split_ifs <;> omega
  · interval_cases g <;> simp
  · interval_cases g <;> simp
  · interval_cases g <;> simp

/-! ## Bounds of the accumulation loop -/

theorem store_length (buffer chunk : List uint8_t) (offset : Nat)
    (h : offset + chunk.length ≤ buffer.length) :
    (store buffer offset chunk).length = buffer.length := by
  unfold store
  simp only [List.length_append, List.length_take, List.length_drop]
  omega

/-- One pass through the loop body, started below the record size: the call
issued is for the missing bytes at the fill offset, it returns no more than
was asked for, and the pass leaves the fill offset within the record and the
buffer at its length. -/
theorem loop_body_bounds (S : Nat) (st : LoopState) (ev : ReadEvent) (ht : st.total_read < S) :
    ∃ c st1, (loop_body S st ev = .next st1 ∨ ∃ ret line, loop_body S st ev = .exit ret line st1) ∧
      st1.reads = st.reads ++ [c] ∧ c.offset = st.total_read ∧ c.count = S - st.total_read ∧
      c.bytes_read ≤ c.count ∧ c.offset + c.bytes_read.toNat ≤ S ∧
      st.total_read ≤ st1.total_read ∧ st1.total_read ≤ S ∧
      (S ≤ st.buffer.length → st1.buffer.length = st.buffer.length) := by
  rcases loop_body_cases S st ev with ⟨_, h1⟩ | ⟨e, _, _, h1⟩ | ⟨n, _, _, h1⟩ | ⟨n, b, _, hbv, _, h1⟩
  · exact ⟨_, _, Or.inl h1, rfl, rfl, rfl, by simp; omega, by simp; omega, le_refl _,
      by simp; omega, fun _ => rfl⟩
  · exact ⟨_, _, Or.inr ⟨_, _, h1⟩, rfl, rfl, rfl, by simp; omega, by simp; omega, le_refl _,
      by simp; omega, fun _ => rfl⟩
  · exact ⟨_, _, Or.inr ⟨_, _, h1⟩, rfl, rfl, rfl, by simp, by simp; omega, le_refl _,
      by simp; omega, fun _ => rfl⟩
  · have hle1 : b ≤ S - st.total_read := hbv ▸ transfer_le_count _ _ _
    have hle2 : b ≤ st.pending.length := hbv ▸ transfer_le_pending _ _ _
    refine ⟨_, _, Or.inl h1, rfl, rfl, rfl, by simp; omega, by simp; omega,
      by simp, by simp; omega, ?_⟩
    intro hS
    exact store_length _ _ _ (by simp; omega)

theorem interruptions_append (a b : List ReadEvent) :
    interruptions (a ++ b) = interruptions a + interruptions b := by
  induction a with
  | nil => simp [interruptions]
  | cons ev a ih =>
    cases ev with
    | ready n => simpa [interruptions] using ih
    | error e =>
      show (if e = EINTR then 1 else 0) + interruptions (a ++ b) = _
      rw [ih]
      simp only [interruptions]
      omega

/-- Every outcome of the loop has issued at most as many reads as there are
bytes in a record and interrupted calls in the script. -/
theorem while_loop_reads_bound (S : Nat) (script0 : List ReadEvent) (buffer pending : List uint8_t)
    (o : Outcome)
    (h : while_loop S script0
      { total_read := 0, buffer := buffer, pending := pending, reads := [] } = some o) :
    o.reads.length ≤ S + interruptions script0 := by
  have key : ∃ consumed, script0 = consumed ++ o.stream.script ∧
      o.reads.length ≤ S + interruptions consumed := by
    refine while_loop_rule S
      (fun script st => st.total_read ≤ S ∧ ∃ consumed, script0 = consumed ++ script ∧
        st.reads.length ≤ st.total_read + interruptions consumed)
      (fun o => ∃ consumed, script0 = consumed ++ o.stream.script ∧
        o.reads.length ≤ S + interruptions consumed) ?_ ?_ ?_ script0 _ o
      ⟨Nat.zero_le _, [], by simp, by simp⟩ h
    · intro ev rest st st1 ⟨hle, consumed, hs, hb⟩ ht hbody
      rcases loop_body_cases S st ev with ⟨hev, h1⟩ | ⟨e, _, _, h1⟩ | ⟨n, _, _, h1⟩ |
        ⟨n, b, hev, hbv, hb0, h1⟩
      · rw [h1] at hbody; cases hbody
        subst hev
        refine ⟨hle, consumed ++ [.error EINTR], by simp [hs], ?_⟩
        simp only [List.length_append, List.length_singleton, interruptions_append, interruptions,
          if_true]
        omega
      · rw [h1] at hbody; cases hbody
      · rw [h1] at hbody; cases hbody
      · rw [h1] at hbody; cases hbody
        subst hev
        have hle1 : b ≤ S - st.total_read := hbv ▸ transfer_le_count _ _ _
        refine ⟨by show st.total_read + b ≤ S; omega, consumed ++ [.ready n], by simp [hs], ?_⟩
        simp only [List.length_append, List.length_singleton, interruptions_append, interruptions]
        omega
    · intro ev rest st ret line st1 ⟨hle, consumed, hs, hb⟩ ht hbody
      refine ⟨consumed ++ [ev], by simp [hs], ?_⟩
      rcases loop_body_cases S st ev with ⟨_, h1⟩ | ⟨e, _, _, h1⟩ | ⟨n, _, _, h1⟩ |
        ⟨n, b, _, _, _, h1⟩
      · rw [h1] at hbody; cases hbody
      · rw [h1] at hbody; cases hbody
        simp only [List.length_append, List.length_singleton, interruptions_append]
        omega
      · rw [h1] at hbody; cases hbody
        simp only [List.length_append, List.length_singleton, interruptions_append]
        omega
      · rw [h1] at hbody; cases hbody
    · intro script st ⟨hle, consumed, hs, hb⟩ _
      exact ⟨consumed, hs, by show st.reads.length ≤ _; omega⟩
  obtain ⟨consumed, hs, hb⟩ := key
  have : interruptions consumed ≤ interruptions script0 := by
    rw [hs, interruptions_append]; omega
  omega

/-- C14: buffer bounds of the accumulation loop. A read never returns more
than the number of bytes requested; at every pass `total_read` is below
`size_to_read` when the read is issued, the read is asked for exactly
`size_to_read - total_read` bytes at offset `total_read`, and after the
update `total_read` is at most `size_to_read`. In every call that returns,
each read ends inside the record and the memory beyond the record is what it
was: no byte is written outside the destination. -/
theorem buffer_bounds (s : Stream) (dest beyond : List uint8_t) (o : Outcome)
    (hdest : dest.length = sizeof_drone_self_state)
    (h : read_drone_state s (some (dest ++ beyond)) = some o) :
    (∀ (n count : Nat) (pending : List uint8_t), transfer n count pending ≤ count) ∧
    (∀ (S : Nat) (st : LoopState) (ev : ReadEvent), st.total_read < S →
      ∃ c st1,
        (loop_body S st ev = .next st1 ∨ ∃ ret line, loop_body S st ev = .exit ret line st1) ∧
        st1.reads = st.reads ++ [c] ∧ c.offset = st.total_read ∧ c.count = S - st.total_read ∧
        c.bytes_read ≤ c.count ∧ c.offset + c.bytes_read.toNat ≤ S ∧
        st.total_read ≤ st1.total_read ∧ st1.total_read ≤ S ∧
        (S ≤ st.buffer.length → st1.buffer.length = st.buffer.length)) ∧
    (∀ c ∈ o.reads, c.offset < sizeof_drone_self_state ∧
      c.count = sizeof_drone_self_state - c.offset ∧ c.bytes_read ≤ c.count ∧
      c.offset + c.bytes_read.toNat ≤ sizeof_drone_self_state) ∧
    o.reads.Chain' (fun c d => d.offset = c.offset + c.bytes_read.toNat) ∧
    (∃ st, o.state = some (st ++ beyond) ∧ st.length = sizeof_drone_self_state) := by
  obtain ⟨k, hr⟩ := while_loop_returned _ _ _ _ o h
  refine ⟨transfer_le_count, loop_body_bounds, ?_, hr.chain, ?_⟩
  · intro c hc
    obtain ⟨h1, h2, h3⟩ := hr.calls c hc
    refine ⟨h1, h2, h3, ?_⟩
    rw [h2] at h3
    omega
  · refine ⟨s.pending.take k ++ dest.drop k, ?_, ?_⟩
    · rw [hr.state_eq, List.drop_append_of_le_length (by rw [hdest]; exact hr.le_size),
        List.append_assoc]
    · have h1 := hr.le_size
      have h2 := hr.le_bytes
      simp only [List.length_append, List.length_take, List.length_drop, hdest]
      omega

/-- Witness of C14: a record read in two reads into a destination followed by
three bytes of other memory. -/
theorem buffer_bounds_witness :
    sample_dest.length = sizeof_drone_self_state ∧
    ∃ o, read_drone_state ⟨sample_record, [.ready 10, .ready 40]⟩
        (some (sample_dest ++ [1, 2, 3])) = some o ∧
      o.reads = [⟨0, 36, 10, 0⟩, ⟨10, 26, 26, 0⟩] ∧
      (∀ c ∈ o.reads, c.offset < sizeof_drone_self_state ∧
        c.count = sizeof_drone_self_state - c.offset ∧ c.bytes_read ≤ c.count ∧
        c.offset + c.bytes_read.toNat ≤ sizeof_drone_self_state) ∧
      (∃ st, o.state = some (st ++ [1, 2, 3]) ∧ st.length = sizeof_drone_self_state) := by
  refine ⟨by decide, _, rfl, by decide, ?_⟩
  have h := buffer_bounds ⟨sample_record, [.ready 10, .ready 40]⟩ sample_dest [1, 2, 3] _
    (by decide) rfl
  exact ⟨h.2.2.1, h.2.2.2.2⟩

/-- C15: bounded progress. A read that transfers data advances the fill offset
by at least one byte, so a call that returns has issued at most
`sizeof(struct drone_self_state) + k` reads, `k` being the number of `EINTR`
results of the script; and on every script at least that long the call does
return, whatever the results are. In particular it returns within the first
`sizeof + k` results of an unending sequence of results of which at most `k`
are interruptions. -/
theorem bounded_progress (s : Stream) (state : Option (List uint8_t))
    (hlen : sizeof_drone_self_state + interruptions s.script ≤ s.script.length) :
    (∀ (S : Nat) (st st1 : LoopState) (n : Nat), loop_body S st (.ready n) = .next st1 →
      st.total_read + 1 ≤ st1.total_read) ∧
    (∃ o, read_drone_state s state = some o ∧
      o.reads.length ≤ sizeof_drone_self_state + interruptions s.script) ∧
    (∀ (results : Nat → ReadEvent) (k : Nat),
      (∀ N, interruptions ((List.range N).map results) ≤ k) →
      ∃ o, read_drone_state
          ⟨s.pending, (List.range (sizeof_drone_self_state + k)).map results⟩ state = some o ∧
        o.reads.length ≤ sizeof_drone_self_state + k) := by
  have main : ∀ (s1 : Stream),
      sizeof_drone_self_state + interruptions s1.script ≤ s1.script.length →
      ∃ o, read_drone_state s1 state = some o ∧
        o.reads.length ≤ sizeof_drone_self_state + interruptions s1.script := by
    intro s1 h1
    cases state with
    | none => exact ⟨_, rfl, Nat.zero_le _⟩
    | some dest =>
      obtain ⟨o, ho⟩ := while_loop_returns sizeof_drone_self_state s1.script
        { total_read := 0, buffer := dest, pending := s1.pending, reads := [] }
        (by simpa using h1)
      exact ⟨o, ho, while_loop_reads_bound _ _ _ _ o ho⟩
  refine ⟨?_, main s hlen, ?_⟩
  · intro S st st1 n hbody
    rcases loop_body_cases S st (.ready n) with ⟨hev, _⟩ | ⟨e, _, hev, _⟩ | ⟨m, _, _, h1⟩ |
      ⟨m, b, _, _, hb0, h1⟩
    · cases hev
    · cases hev
    · rw [h1] at hbody; cases hbody
    · rw [h1] at hbody; cases hbody
      show st.total_read + 1 ≤ st.total_read + b
      omega
  · intro results k hk
    have hN := hk (sizeof_drone_self_state + k)
    obtain ⟨o, ho, hb⟩ := main ⟨s.pending, (List.range (sizeof_drone_self_state + k)).map results⟩
      (by simp only [List.length_map, List.length_range]; omega)
    exact ⟨o, ho, by simp only at hb; omega⟩

/-- Witness of C15: 36 reads of one byte with two interruptions among them. -/
theorem bounded_progress_witness :
    sizeof_drone_self_state + interruptions sample_interrupted ≤ sample_interrupted.length ∧
    ∃ o, read_drone_state ⟨sample_record, sample_interrupted⟩ (some sample_dest) = some o ∧
      o.reads.length ≤ sizeof_drone_self_state + interruptions sample_interrupted :=
  ⟨by decide,
    (bounded_progress ⟨sample_record, sample_interrupted⟩ (some sample_dest) (by decide)).2.1⟩

/-- C16: effect of a failed call on the destination. When `read_drone_state`
returns -1 after `k` bytes were transferred, `k` is less than the record
size, the first `k` bytes of the destination record are the first `k` bytes
the stream delivered, in order, and the remaining
`sizeof(struct drone_self_state) - k` bytes are what they were before the
call. -/
theorem failed_call_effect (s : Stream) (dest : List uint8_t) (o : Outcome)
    (hdest : dest.length = sizeof_drone_self_state)
    (h : read_drone_state s (some dest) = some o) (hfail : o.ret = -1) :
    ∃ k st, k < sizeof_drone_self_state ∧ transferred o.reads = k ∧
      k ≤ s.pending.length ∧ o.stream.pending = s.pending.drop k ∧
      o.state = some st ∧ st.length = sizeof_drone_self_state ∧
      st.take k = s.pending.take k ∧ st.drop k = dest.drop k ∧
      (st.drop k).length = sizeof_drone_self_state - k := by
  obtain ⟨k, hk, hr⟩ := returned_of_failure s dest o h hfail
  have hl : (s.pending.take k).length = k := by
    rw [List.length_take]; exact Nat.min_eq_left hr.le_bytes
  refine ⟨k, _, hk, hr.transferred_eq, hr.le_bytes, hr.pending_eq, hr.state_eq, ?_, ?_, ?_, ?_⟩
  · rw [List.length_append, hl, List.length_drop, hdest]; omega
  · exact List.take_left' hl
  · exact List.drop_left' hl
  · rw [List.drop_left' hl, List.length_drop, hdest]

/-- Witness of C16: the peer closes after 10 of 36 bytes. -/
theorem failed_call_effect_witness :
    sample_dest.length = sizeof_drone_self_state ∧
    ∃ o, read_drone_state ⟨sample_record, [.ready 4, .ready 6, .ready 0]⟩ (some sample_dest)
        = some o ∧ o.ret = -1 ∧
      ∃ k st, k < sizeof_drone_self_state ∧ transferred o.reads = k ∧
        k ≤ sample_record.length ∧ o.stream.pending = sample_record.drop k ∧
        o.state = some st ∧ st.length = sizeof_drone_self_state ∧
        st.take k = sample_record.take k ∧ st.drop k = sample_dest.drop k ∧
        (st.drop k).length = sizeof_drone_self_state - k := by
  refine ⟨by decide, _, rfl, by decide, ?_⟩
  exact failed_call_effect ⟨sample_record, [.ready 4, .ready 6, .ready 0]⟩ sample_dest _
    (by decide) rfl (by decide)

end SerialReader
